import Mathlib

/-!
# Verification of the apfsprogs b-tree engine (`apfsck/btree.c`)

Shallow embedding of the node reader, record locators, in-node bisection
search, tree descender, object-map lookup and subtree validator of
`src/apfsck/btree.c`, together with proofs of the specification claims.

Conventions of the embedding:
* C `int` values are modelled as `Int`; unsigned on-disk fields
  (`u16`/`u32`/`u64`, already passed through `le16/32/64_to_cpu`) are
  modelled as `Nat`.
* C integer division truncates toward zero, so every `/` of the source is
  translated as `Int.tdiv` (on the non-negative operands that actually
  arise it agrees with Euclidean division).
* `exit(1)` (fatal corruption) is modelled as the `Except` error
  `BErr.fatal`, tagged with the diagnostic class printed by the source.
* Loops and recursion that the C source drives by `goto`/recursion are
  modelled with explicit fuel; exhaustion is the distinguished error
  `BErr.noFuel`, never to be confused with a result of the program.
* External collaborators that are not part of this repository's sources
  (`keycmp`, `read_cat_key`, `read_omap_key`, the checksum verifier) are
  parameters of the model: a raw block carries its decode functions and
  the comparator is an explicit argument.
-/

namespace Apfsck

/-- The classes of fatal diagnostics printed by `btree.c` before `exit(1)`. -/
inductive Fatal where
  | badChecksum      -- "Bad checksum for node in block ..."
  | notSane          -- "Node in block ... is not sane"
  | indexOOB         -- "Requested index out-of-bounds"
  | keyOOB           -- "B-tree key is out-of-bounds"
  | valueOOB         -- "B-tree value is out-of-bounds"
  | keysOutOfOrder   -- "Node keys are out of order." / "B-tree records are out of order."
  | keysRepeated     -- "Leaf keys are repeated."
  | wrongValSize     -- "Wrong size of nonleaf record value" / omap leaf value
  | wrongOid         -- "Wrong object id on b-tree node." / on block number
  | omapMissing      -- "Omap record missing for id ..."
  | corruptedValue   -- "Corrupted record value in node ..."
  | tooDeep          -- "Corrupted b-tree is too deep."
  | bug              -- "Bug!" (invalid tree-flavor flags)
  deriving DecidableEq, Repr

/-- Non-success outcomes of the embedded functions: a fatal `exit(1)`, the
`-ENODATA` and `-EAGAIN` error codes of the source, and fuel exhaustion of
the model (not a behaviour of the program). -/
inductive BErr where
  | fatal (f : Fatal)
  | enodata
  | eagain
  | noFuel
  deriving DecidableEq, Repr

/-- Result type of the embedded fallible functions. -/
abbrev BRes (α : Type) := Except BErr α

/-- Modelled from the spec: the decoded key (`struct key` of the checker,
whose header is not among the sources). Per the spec it "carries at least
an `oid`, a `kind` tag, an optional `number`, and an optional `name`". -/
structure BKey where
  oid : Nat
  kind : Nat
  number : Nat
  name : Option (List Nat)
  deriving DecidableEq, Repr

instance : Inhabited BKey := ⟨⟨0, 0, 0, none⟩⟩

/-- Modelled from the spec: `init_omap_key` (external collaborator) builds
"a key with only `oid = target`". -/
def init_omap_key (id : Nat) : BKey := ⟨id, 0, 0, none⟩

/-- `sizeof(struct apfs_btree_node_phys)`: 32-byte object header plus
flags/level (2+2), nkeys (4), table space (4), free space (4), and the two
free lists (4+4). -/
def headerSize : Nat := 56

/-- `sizeof(struct apfs_btree_info)`: the 40-byte root-node footer. -/
def footerSize : Nat := 40

/-- `sizeof(struct apfs_kvoff)`: two 16-bit offsets. -/
def kvoffSize : Nat := 4

/-- `sizeof(struct apfs_kvloc)`: two 16-bit offset+length pairs. -/
def kvlocSize : Nat := 8

/-- The raw bytes of one on-disk block, abstracted to the fields and decode
operations `btree.c` actually reads from it.  The table entries are given
as functions of the record index (the source computes
`(struct apfs_kvoff/kvloc *)raw->btn_data + index`), and the key decoders
`read_cat_key`/`read_omap_key` — external collaborators — are functions of
the byte offset and length they are handed. -/
structure RawBlock where
  /-- `le16_to_cpu(raw->btn_flags)`. -/
  btnFlags : Nat
  /-- `le32_to_cpu(raw->btn_nkeys)`. -/
  btnNkeys : Nat
  /-- `le16_to_cpu(raw->btn_table_space.off)`. -/
  tsOff : Nat
  /-- `le16_to_cpu(raw->btn_table_space.len)`. -/
  tsLen : Nat
  /-- `le16_to_cpu(raw->btn_free_space.off)`. -/
  fsOff : Nat
  /-- `le16_to_cpu(raw->btn_free_space.len)`. -/
  fsLen : Nat
  /-- `le64_to_cpu(raw->btn_o.o_oid)`. -/
  oid : Nat
  /-- Result of the external `obj_verify_csum(&raw->btn_o)`. -/
  csumOk : Bool
  /-- Fixed-size table entry at an index: `(entry->k, entry->v)`, both u16. -/
  entF : Nat → Nat × Nat
  /-- Variable-size table entry at an index:
  `((entry->k.off, entry->k.len), (entry->v.off, entry->v.len))`. -/
  entV : Nat → (Nat × Nat) × (Nat × Nat)
  /-- External `read_omap_key(raw + off, len, &key)`. -/
  omapKeyAt : Int → Int → BKey
  /-- External `read_cat_key(raw + off, len, &key)`. -/
  catKeyAt : Int → Int → BKey
  /-- `le64_to_cpu(*(__le64 *)(raw + off))`. -/
  readU64 : Int → Nat

/-- The in-memory node structure (`struct node`) as filled by `read_node`. -/
structure Node where
  /-- `le16_to_cpu(raw->btn_flags)`. -/
  flags : Nat
  /-- `le32_to_cpu(raw->btn_nkeys)`, stored in a C `int`. -/
  records : Int
  /-- Start of the key area: `sizeof(*raw) + table_space.off + table_space.len`. -/
  key : Int
  /-- Start of the free area: `key + free_space.off`. -/
  free : Int
  /-- Start of the data area: `free + free_space.len`. -/
  data : Int
  /-- `object.oid`. -/
  oid : Nat
  /-- `object.block_nr`. -/
  blockNr : Nat
  /-- The backing mapped block. -/
  raw : RawBlock

/-- Modelled from the spec: the b-tree node flag bits (`APFS_BTNODE_ROOT`,
`APFS_BTNODE_LEAF`, `APFS_BTNODE_FIXED_KV_SIZE` of the missing header);
the spec says `flags` "encodes `is_root`, `is_leaf`, `has_fixed_kv_size`". -/
def node_is_root (n : Node) : Bool := n.flags.testBit 0

/-- `node_is_leaf` flag test (bit 1 of `btn_flags`). -/
def node_is_leaf (n : Node) : Bool := n.flags.testBit 1

/-- `node_has_fixed_kv_size` flag test (bit 2 of `btn_flags`). -/
def node_has_fixed_kv_size (n : Node) : Bool := n.flags.testBit 2

/-- The part of the process-wide state (`sb`, `fd`) that `btree.c` reads:
the block size, the device (block number to raw block), and the container's
omap root used by `btree_query` for catalog child resolution. -/
structure SB where
  blocksize : Int
  disk : Nat → RawBlock
  omapRoot : Node

/-- `node_is_valid` — basic sanity of the node index (btree.c:26-42).
The C locals `records`, `index_size` and `entry_size` are inlined. -/
def node_is_valid (sb : SB) (node : Node) : Bool :=
  if node.records = 0 then false
  else if node.key > sb.blocksize then false
  else node.records *
        (if node_has_fixed_kv_size node then (kvoffSize : Int) else (kvlocSize : Int)) ≤
      node.key - (headerSize : Int)

/-- The field assignments of `read_node` (btree.c:68-76). -/
def node_from_raw (raw : RawBlock) (block : Nat) : Node :=
  { flags := raw.btnFlags
    records := (raw.btnNkeys : Int)
    key := (headerSize : Int) + (raw.tsOff : Int) + (raw.tsLen : Int)
    free := (headerSize : Int) + (raw.tsOff : Int) + (raw.tsLen : Int) + (raw.fsOff : Int)
    data := (headerSize : Int) + (raw.tsOff : Int) + (raw.tsLen : Int) + (raw.fsOff : Int)
            + (raw.fsLen : Int)
    oid := raw.oid
    blockNr := block
    raw := raw }

/-- `read_node` — read a node from disk, verify checksum and sanity
(btree.c:50-91).  The mmap and malloc failure paths are environment
failures outside the model. -/
def read_node (sb : SB) (block : Nat) : BRes Node :=
  if ¬ (sb.disk block).csumOk then .error (.fatal .badChecksum)
  else if ¬ node_is_valid sb (node_from_raw (sb.disk block) block) then
    .error (.fatal .notSane)
  else .ok (node_from_raw (sb.disk block) block)

/-- The `(offset_in_block, length)` pair computed by `node_locate_key`
before its bounds check (btree.c:129-144). -/
def key_loc (node : Node) (index : Int) : Int × Int :=
  if node_has_fixed_kv_size node then
    (node.key + ((node.raw.entF index.toNat).1 : Int), 16)
  else
    (node.key + ((node.raw.entV index.toNat).1.1 : Int),
     ((node.raw.entV index.toNat).1.2 : Int))

/-- `node_locate_key` — offset and length of the key of record `index`
(btree.c:118-151).  Returns `(off, len)`. -/
def node_locate_key (sb : SB) (node : Node) (index : Int) : BRes (Int × Int) :=
  if index ≥ node.records then .error (.fatal .indexOOB)
  else if (key_loc node index).1 + (key_loc node index).2 > sb.blocksize then
    .error (.fatal .keyOOB)
  else .ok (key_loc node index)

/-- The `(offset_in_block, length)` pair computed by `node_locate_data`
before its bounds check (btree.c:174-205): data offsets count backwards
from the block end, or from the footer start on root nodes; fixed-kv
lengths are 16 on leaves and 8 elsewhere. -/
def data_loc (sb : SB) (node : Node) (index : Int) : Int × Int :=
  if node_has_fixed_kv_size node then
    (if node_is_root node then
       sb.blocksize - (footerSize : Int) - ((node.raw.entF index.toNat).2 : Int)
     else sb.blocksize - ((node.raw.entF index.toNat).2 : Int),
     if node_is_leaf node then 16 else 8)
  else
    (if node_is_root node then
       sb.blocksize - (footerSize : Int) - ((node.raw.entV index.toNat).2.1 : Int)
     else sb.blocksize - ((node.raw.entV index.toNat).2.1 : Int),
     ((node.raw.entV index.toNat).2.2 : Int))

/-- `node_locate_data` — offset and length of the value of record `index`
(btree.c:163-212).  Returns `(off, len)`. -/
def node_locate_data (sb : SB) (node : Node) (index : Int) : BRes (Int × Int) :=
  if index ≥ node.records then .error (.fatal .indexOOB)
  else if (data_loc sb node index).1 < 0 ∨
      (data_loc sb node index).1 + (data_loc sb node index).2 > sb.blocksize then
    .error (.fatal .valueOOB)
  else .ok (data_loc sb node index)

/-- Modelled from the spec: the query flag bits of the missing header
(`QUERY_CAT`, `QUERY_OMAP`, `QUERY_MULTIPLE`, `QUERY_EXACT`, `QUERY_DONE`,
`QUERY_NEXT`), represented as a record of booleans; the bit operations of
the source (`|=`, `& ~(QUERY_DONE | QUERY_NEXT)`, `& QUERY_TREE_MASK`)
become field updates and reads. -/
structure QFlags where
  cat : Bool := false
  omap : Bool := false
  multiple : Bool := false
  exact : Bool := false
  done : Bool := false
  next : Bool := false
  deriving DecidableEq, Repr

/-- One `struct query` without its `parent` pointer; the parent chain is
kept alongside as an explicit list of frames (the chain is strictly a
list: each query has at most one parent).  C leaves `key_off`, `key_len`,
`off`, `len` uninitialized in `alloc_query`; the model zeroes them (they
are always written before being read). -/
structure QFrame where
  node : Node
  key : Option BKey
  flags : QFlags
  index : Int
  keyOff : Int
  keyLen : Int
  off : Int
  len : Int
  depth : Int

/-- `alloc_query` (btree.c:413-432); `parent = none` is the C `NULL`. -/
def alloc_query (node : Node) (parent : Option QFrame) : QFrame :=
  { node := node
    key := match parent with | some p => p.key | none => none
    flags := match parent with
      | some p => { p.flags with done := false, next := false }
      | none => {}
    index := node.records
    keyOff := 0
    keyLen := 0
    off := 0
    len := 0
    depth := match parent with | some p => p.depth + 1 | none => 0 }

/-- `key_from_query` (btree.c:458-480): dispatch on the tree-flavor bits
(`QUERY_TREE_MASK` selects exactly one of `QUERY_CAT`/`QUERY_OMAP`; any
other combination is the "Bug!" exit) and mask `number`/`name` for
multiple queries. -/
def key_from_query (q : QFrame) : BRes BKey :=
  let raw := q.node.raw
  match q.flags.cat, q.flags.omap with
  | true, false =>
    let key := raw.catKeyAt q.keyOff q.keyLen
    .ok (if q.flags.multiple then { key with number := 0, name := none } else key)
  | false, true =>
    let key := raw.omapKeyAt q.keyOff q.keyLen
    .ok (if q.flags.multiple then { key with number := 0, name := none } else key)
  | _, _ => .error (.fatal .bug)

/-- The key of record `i` of the node of `q`, as `node_query`/`node_next`
read it: locate the key, then decode it through `key_from_query` (the
result does not depend on `q.index`). -/
def record_key (sb : SB) (q : QFrame) (i : Int) : BRes BKey := do
  let (kOff, kLen) ← node_locate_key sb q.node i
  key_from_query { q with keyOff := kOff, keyLen := kLen }

/-- `node_next` — find the next matching record of a multiple query in the
current node (btree.c:489-533).  The C `query->key` dereference is
modelled by `Option.iget` (callers always set the key); the decrement of
`query->index` and the stores of the located key are combined into one
frame update. -/
def node_next (sb : SB) (cmp : BKey → BKey → Int) (q0 : QFrame) : BRes QFrame :=
  if q0.flags.done then .error .enodata
  else if q0.index = 0 then .error .eagain
  else
    match node_locate_key sb q0.node (q0.index - 1) with
    | .error e => .error e
    | .ok (kOff, kLen) =>
      let q : QFrame := { q0 with index := q0.index - 1, keyOff := kOff, keyLen := kLen }
      match key_from_query q with
      | .error e => .error e
      | .ok curr =>
        if 0 < cmp curr q.key.iget then .error (.fatal .keysOutOfOrder)
        else if cmp curr q.key.iget ≠ 0 ∧ node_is_leaf q.node ∧ q.flags.exact then
          .error .enodata
        else
          match node_locate_data sb q.node q.index with
          | .error e => .error e
          | .ok (off, len) =>
            if len = 0 then .error (.fatal .corruptedValue)
            else if cmp curr q.key.iget ≠ 0 then
              .ok { q with off := off, len := len,
                           flags := { q.flags with done := true } }
            else .ok { q with off := off, len := len }

/-- The `DIV_ROUND_UP(n, d)` macro: `((n) + (d) - 1) / (d)` with C
(truncating) division. -/
def div_round_up (n d : Int) : Int := Int.tdiv (n + d - 1) d

/-- The interval-adjustment step at the head of the bisection loop of
`node_query` (btree.c:571-579): on a preceding comparison `> 0` shrink to
the lower half (`-ENODATA` when the interval empties), otherwise advance
`left` to the current index and move the index up to
`DIV_ROUND_UP(left + right, 2)`.  Returns the frame with the new index
together with the new `left` and `right`. -/
def bisect_step (q : QFrame) (left right c : Int) : BRes (QFrame × Int × Int) :=
  if 0 < c then
    if q.index - 1 < left then .error .enodata
    else .ok ({ q with index := Int.tdiv (left + (q.index - 1)) 2 }, left, q.index - 1)
  else
    .ok ({ q with index := div_round_up (q.index + right) 2 }, q.index, right)

/-- The bisection loop of `node_query` (btree.c:569-588), one recursive
call per `do`-`while` iteration.  State: the frame `q` (whose `index` is
the record last compared), the `left`/`right` bounds and the last
comparison result `c`; on the first iteration `c = 1`, so `right` is dead
and is passed as `0`.  Returns the frame and comparison at loop exit. -/
def bisect_loop (sb : SB) (cmp : BKey → BKey → Int) (qkey : BKey) :
    Nat → QFrame → Int → Int → Int → BRes (QFrame × Int)
  | 0, _, _, _, _ => .error .noFuel
  | fuel + 1, q0, left0, right0, c0 =>
    match bisect_step q0 left0 right0 c0 with
    | .error e => .error e
    | .ok (q1, left, right) =>
      match node_locate_key sb q1.node q1.index with
      | .error e => .error e
      | .ok (kOff, kLen) =>
        match key_from_query { q1 with keyOff := kOff, keyLen := kLen } with
        | .error e => .error e
        | .ok curr =>
          if cmp curr qkey = 0 ∧ q1.flags.multiple = false then
            .ok ({ q1 with keyOff := kOff, keyLen := kLen }, cmp curr qkey)
          else if left = right then
            .ok ({ q1 with keyOff := kOff, keyLen := kLen }, cmp curr qkey)
          else bisect_loop sb cmp qkey fuel
            { q1 with keyOff := kOff, keyLen := kLen } left right (cmp curr qkey)

/-- The multiple-query flag updates of `node_query` (btree.c:596-600):
mark `DONE` on an inexact match and set `NEXT`; no effect on single
queries.  The two C `|=` stores are combined into one update. -/
def multiple_update (q : QFrame) (c : Int) : QFrame :=
  if q.flags.multiple then
    if c ≠ 0 then { q with flags := { q.flags with done := true, next := true } }
    else { q with flags := { q.flags with next := true } }
  else q

/-- `node_query` — execute a query on a single node (btree.c:556-609). -/
def node_query (sb : SB) (cmp : BKey → BKey → Int) (fuel : Nat) (q : QFrame) :
    BRes QFrame :=
  if q.flags.next then node_next sb cmp q
  else
    match bisect_loop sb cmp q.key.iget fuel q 0 0 1 with
    | .error e => .error e
    | .ok (q1, c) =>
      if 0 < c then .error .enodata
      else if c ≠ 0 ∧ node_is_leaf q1.node ∧ q1.flags.exact then .error .enodata
      else
        match node_locate_data sb q1.node q1.index with
        | .error e => .error e
        | .ok (off, len) =>
          if len = 0 then .error (.fatal .corruptedValue)
          else .ok { multiple_update q1 c with off := off, len := len }

/-- `child_from_query` — read the child id found by a successful nonleaf
query (btree.c:338-349). -/
def child_from_query (q : QFrame) : BRes Nat :=
  if q.len ≠ 8 then .error (.fatal .wrongValSize)
  else .ok (q.node.raw.readU64 q.off)

/-- `bno_from_query` — read the block number found by a successful omap
query (btree.c:358-370).  `sizeof(struct apfs_omap_val)` is 16 and
`ov_paddr` sits 8 bytes into it. -/
def bno_from_query (q : QFrame) : BRes Nat :=
  if q.len ≠ 16 then .error (.fatal .wrongValSize)
  else .ok (q.node.raw.readU64 (q.off + 8))

/-- Result of `btree_query`: the outcome (on success, the final frame and
the retained ancestor frames) plus two ghost observations that do not
influence the computation: the depths at which `node_query` was invoked,
in order, and the number of times the re-ascend (`-EAGAIN`) branch ran. -/
structure BTOut where
  res : BRes (QFrame × List QFrame)
  depths : List Int
  reascends : Nat

/-- The query `omap_lookup_block` allocates and initializes
(btree.c:385-389): an exact `OMAP` query on the omap root for a key
holding only `oid = id`. -/
def omap_query (tbl : Node) (id : Nat) : QFrame :=
  { alloc_query tbl none with
    key := some (init_omap_key id)
    flags := { (alloc_query tbl none).flags with omap := true, exact := true } }

/-- The body of `omap_lookup_block` (btree.c:379-400) — an exact `OMAP`
query for a key holding only `oid = id`, where any query failure is the
fatal "Omap record missing" exit — parameterized by the tree descender
`btq` so that the mutual recursion with `btree_query` goes through the
fuel structurally. -/
def omap_lookup_with (btq : QFrame → List QFrame → BTOut) (tbl : Node)
    (id : Nat) : BRes Nat :=
  match (btq (omap_query tbl id) []).res with
  | .ok (q', _) => bno_from_query q'
  | .error (.fatal f) => .error (.fatal f)
  | .error .noFuel => .error .noFuel
  | .error _ => .error (.fatal .omapMissing)

/-- The re-ascend branch of `btree_query` (btree.c:639-649): with no
parent the search failed at the root; otherwise the current query is
released and the search continues in the parent (`btq`, the descender at
the current fuel).  The ghost trace counts the re-ascent. -/
def reascend (btq : QFrame → List QFrame → BTOut) (q : QFrame) :
    List QFrame → BTOut
  | [] => ⟨.error .enodata, [q.depth], 0⟩
  | p :: ps =>
    let out := btq p ps
    ⟨out.res, q.depth :: out.depths, out.reascends + 1⟩

/-- `btree_query` — execute a query on a b-tree (btree.c:624-689), one
recursive call per `goto next_node`.  `parents` is the ancestor chain of
the current query. -/
def btree_query (sb : SB) (cmp : BKey → BKey → Int) :
    Nat → QFrame → List QFrame → BTOut
  | 0, _, _ => ⟨.error .noFuel, [], 0⟩
  | fuel + 1, q, parents =>
    if 12 ≤ q.depth then ⟨.error (.fatal .tooDeep), [], 0⟩
    else
      match node_query sb cmp fuel q with
      | .error e =>
        if e = .eagain then
          reascend (fun a b => btree_query sb cmp fuel a b) q parents
        else ⟨.error e, [q.depth], 0⟩
      | .ok q' =>
        if node_is_leaf q'.node then ⟨.ok (q', parents), [q.depth], 0⟩
        else
          match child_from_query q' with
          | .error e => ⟨.error e, [q.depth], 0⟩
          | .ok child_id =>
            let blkRes : BRes Nat :=
              if q'.flags.omap then .ok child_id
              else
                omap_lookup_with (fun a b => btree_query sb cmp fuel a b)
                  sb.omapRoot child_id
            match blkRes with
            | .error e => ⟨.error e, [q.depth], 0⟩
            | .ok child_blk =>
              match read_node sb child_blk with
              | .error e => ⟨.error e, [q.depth], 0⟩
              | .ok child =>
                if child.oid ≠ child_id then
                  ⟨.error (.fatal .wrongOid), [q.depth], 0⟩
                else
                  let next :=
                    if q'.flags.multiple then
                      (alloc_query child (some q'), q' :: parents)
                    else
                      ({ q' with node := child, index := child.records,
                                 depth := q'.depth + 1 }, parents)
                  let out := btree_query sb cmp fuel next.1 next.2
                  ⟨out.res, q.depth :: out.depths, out.reascends⟩

/-- `omap_lookup_block` — find the block number of a b-tree node from its
id (btree.c:379-400). -/
def omap_lookup_block (sb : SB) (cmp : BKey → BKey → Int) (fuel : Nat)
    (tbl : Node) (id : Nat) : BRes Nat :=
  omap_lookup_with (fun a b => btree_query sb cmp fuel a b) tbl id

/-- Ghost trace entry of the subtree validator: one per record visited, in
DFS (left-to-right) order — the block of the node, the record's index in
it, whether the node is a leaf, and the decoded key. -/
structure TEnt where
  blockNr : Nat
  idx : Nat
  leaf : Bool
  key : BKey
  deriving DecidableEq, Repr

/-- The child-loading step of `parse_subtree` for one nonleaf record
(btree.c:255-271): locate the value, require length 8, read the child
object id, resolve it through the omap when one is supplied, load the
child node and require that its header oid matches. -/
def load_child (sb : SB) (cmp : BKey → BKey → Int) (fuel : Nat) (root : Node)
    (i : Nat) (omapRoot : Option Node) : BRes Node :=
  match node_locate_data sb root (i : Int) with
  | .error e => .error e
  | .ok (off, len) =>
    if len ≠ 8 then .error (.fatal .wrongValSize)
    else
      match (match omapRoot with
             | some om => omap_lookup_block sb cmp fuel om (root.raw.readU64 off)
             | none => .ok (root.raw.readU64 off) : BRes Nat) with
      | .error e => .error e
      | .ok bno =>
        match read_node sb bno with
        | .error e => .error e
        | .ok child =>
          if root.raw.readU64 off ≠ child.oid then .error (.fatal .wrongOid)
          else .ok child

/-- The key of record `i` as the validator decodes it (btree.c:234-238):
locate, then decode with the catalog decoder when an omap root is
supplied, and with the omap decoder otherwise. -/
def subtree_key (sb : SB) (root : Node) (omapRoot : Option Node) (i : Nat) :
    BRes BKey :=
  match node_locate_key sb root (i : Int) with
  | .error e => .error e
  | .ok (kOff, kLen) =>
    .ok (match omapRoot with
         | some _ => root.raw.catKeyAt kOff kLen
         | none => root.raw.omapKeyAt kOff kLen)

/-- The record loop of `parse_subtree` (btree.c:228-275) over the listed
record indices, threading the `last_key` accumulator and the ghost trace;
`childGo` is the recursive call on a child subtree (supplied by
`parse_subtree`, which owns the fuel). -/
def parse_records (sb : SB) (cmp : BKey → BKey → Int) (fuel : Nat)
    (root : Node) (omapRoot : Option Node)
    (childGo : Node → BKey → BRes (BKey × List TEnt)) :
    List Nat → BKey → List TEnt → BRes (BKey × List TEnt)
  | [], lastKey, acc => .ok (lastKey, acc)
  | i :: rest, lastKey, acc =>
    match subtree_key sb root omapRoot i with
    | .error e => .error e
    | .ok curr =>
      if 0 < cmp lastKey curr then .error (.fatal .keysOutOfOrder)
      else if i ≠ 0 ∧ node_is_leaf root ∧ cmp lastKey curr = 0 then
        .error (.fatal .keysRepeated)
      else if node_is_leaf root then
        parse_records sb cmp fuel root omapRoot childGo rest curr
          (acc ++ [⟨root.blockNr, i, node_is_leaf root, curr⟩])
      else
        match load_child sb cmp fuel root i omapRoot with
        | .error e => .error e
        | .ok child =>
          match childGo child curr with
          | .error e => .error e
          | .ok (lastKey', sub) =>
            parse_records sb cmp fuel root omapRoot childGo rest lastKey'
              (acc ++ [⟨root.blockNr, i, node_is_leaf root, curr⟩] ++ sub)

/-- `parse_subtree` — parse a subtree and check for corruption
(btree.c:222-276).  Returns the final `last_key` and the ghost DFS trace
of visited records.  The unbounded C recursion is driven by fuel. -/
def parse_subtree (sb : SB) (cmp : BKey → BKey → Int) :
    Nat → Node → BKey → Option Node → BRes (BKey × List TEnt)
  | 0, _, _, _ => .error .noFuel
  | fuel + 1, root, lastKey, omapRoot =>
    parse_records sb cmp fuel root omapRoot
      (fun child lk => parse_subtree sb cmp fuel child lk omapRoot)
      (List.range root.records.toNat) lastKey []

end Apfsck

namespace Apfsck

/-- A concrete instantiation of the external `keycmp` for omap keys:
order by `oid`, then by `number`. -/
def cmpK (a b : BKey) : Int :=
  if a.oid < b.oid then -1
  else if b.oid < a.oid then 1
  else if a.number < b.number then -1
  else if b.number < a.number then 1
  else 0

/-- A raw block with a failing checksum, used for unmapped blocks of the
concrete images. -/
def rawJunk : RawBlock :=
  { btnFlags := 0, btnNkeys := 0, tsOff := 0, tsLen := 0, fsOff := 0,
    fsLen := 0, oid := 0, csumOk := false,
    entF := fun _ => (0, 0), entV := fun _ => ((0, 0), (0, 0)),
    omapKeyAt := fun _ _ => default, catKeyAt := fun _ _ => default,
    readU64 := fun _ => 0 }

/-- End-to-end scenario 1, root block: omap internal root node, oid 1024,
one record `{key.oid = 7, child = 2048}` (fixed-kv; the 8-byte child id
sits at `4096 - 40 - 48 = 4008`). -/
def rawOmapRootW : RawBlock :=
  { btnFlags := 5, btnNkeys := 1, tsOff := 0, tsLen := 64, fsOff := 0,
    fsLen := 0, oid := 1024, csumOk := true,
    entF := fun _ => (0, 48), entV := fun _ => ((0, 0), (0, 0)),
    omapKeyAt := fun _ _ => ⟨7, 0, 0, none⟩,
    catKeyAt := fun _ _ => default,
    readU64 := fun off => if off = 4008 then 2048 else 0 }

/-- End-to-end scenario 1, leaf block: omap leaf, oid 2048, one record
`{key.oid = 7, value.paddr = 4096}` (16-byte value at `4096 - 16 = 4080`,
`ov_paddr` at `4088`). -/
def rawOmapLeafW : RawBlock :=
  { btnFlags := 6, btnNkeys := 1, tsOff := 0, tsLen := 64, fsOff := 0,
    fsLen := 0, oid := 2048, csumOk := true,
    entF := fun _ => (0, 16), entV := fun _ => ((0, 0), (0, 0)),
    omapKeyAt := fun _ _ => ⟨7, 0, 0, none⟩,
    catKeyAt := fun _ _ => default,
    readU64 := fun off => if off = 4088 then 4096 else 0 }

/-- The in-memory node for the scenario root, as `read_node` builds it. -/
def nodeOmapRootW : Node :=
  { flags := 5, records := 1, key := 120, free := 120, data := 120,
    oid := 1024, blockNr := 1024, raw := rawOmapRootW }

/-- The concrete two-level omap image of end-to-end scenario 1. -/
def sbW : SB :=
  { blocksize := 4096
    disk := fun b => if b = 1024 then rawOmapRootW
                     else if b = 2048 then rawOmapLeafW else rawJunk
    omapRoot := nodeOmapRootW }

/-- Reading the scenario root block yields the scenario root node. -/
lemma sbW_read_node_root : read_node sbW 1024 = .ok nodeOmapRootW := by rfl

/-- On the scenario image the omap lookup of the mapped oid succeeds. -/
lemma sbW_omap_lookup_hit :
    omap_lookup_block sbW cmpK 20 nodeOmapRootW 7 = .ok 4096 := by rfl

/-- On the scenario image the omap lookup of an unmapped oid is fatal. -/
lemma sbW_omap_lookup_miss :
    omap_lookup_block sbW cmpK 20 nodeOmapRootW 8 =
      .error (.fatal .omapMissing) := by rfl

/-! ## Elimination lemmas for the node reader -/

/-- Everything `read_node` guarantees about a node it returns. -/
lemma read_node_ok {sb : SB} {blk : Nat} {node : Node}
    (h : read_node sb blk = .ok node) :
    (sb.disk blk).csumOk = true ∧ node_is_valid sb node = true ∧
    node.key = (headerSize : Int) + ((sb.disk blk).tsOff : Int) + ((sb.disk blk).tsLen : Int) ∧
    node.records = ((sb.disk blk).btnNkeys : Int) ∧
    node.raw = sb.disk blk ∧ node.flags = (sb.disk blk).btnFlags ∧
    node.oid = (sb.disk blk).oid ∧ node.blockNr = blk := by
  unfold read_node at h
  split_ifs at h with h1 h2
  injection h with h
  subst h
  exact ⟨h1, h2, rfl, rfl, rfl, rfl, rfl, rfl⟩

/-- `read_node` returns the node built by `node_from_raw`. -/
lemma read_node_ok_eq {sb : SB} {blk : Nat} {node : Node}
    (h : read_node sb blk = .ok node) : node = node_from_raw (sb.disk blk) blk := by
  unfold read_node at h
  split_ifs at h
  injection h with h
  exact h.symm

/-- Unpacking of `node_is_valid`. -/
lemma node_is_valid_spec {sb : SB} {node : Node}
    (h : node_is_valid sb node = true) :
    node.records ≠ 0 ∧ node.key ≤ sb.blocksize ∧
    node.records *
      (if node_has_fixed_kv_size node then (kvoffSize : Int) else (kvlocSize : Int)) ≤
      node.key - (headerSize : Int) := by
  unfold node_is_valid at h
  split_ifs at h with h1 h2 h3
  · simp only [decide_eq_true_eq] at h
    push_neg at h2
    exact ⟨h1, h2, by rw [if_pos h3]; exact h⟩
  · simp only [decide_eq_true_eq] at h
    push_neg at h2
    exact ⟨h1, h2, by rw [if_neg h3]; exact h⟩

/-- The key area of a node accepted by `read_node` starts at a
non-negative offset (in fact at or past the 56-byte header). -/
lemma read_node_key_nonneg {sb : SB} {blk : Nat} {node : Node}
    (h : read_node sb blk = .ok node) : 0 ≤ node.key := by
  obtain ⟨-, -, hk, -⟩ := read_node_ok h
  rw [hk]; positivity

/-- C3: every node returned by `read_node` has `record_count > 0`,
`key_area_start ≤ block_size`,
`record_count * entry_size ≤ key_area_start − header_size` (entry size 4
for fixed-kv nodes, 8 for variable-kv nodes) and a matching checksum; and
`read_node` answers any raw node with a fatal error (bad checksum or
insane geometry) whenever it does not return such a node. -/
theorem claim_C3_read_node_invariants :
    (∀ (sb : SB) (blk : Nat) (node : Node), read_node sb blk = .ok node →
      0 < node.records ∧ node.key ≤ sb.blocksize ∧
      node.records *
        (if node_has_fixed_kv_size node then (kvoffSize : Int) else (kvlocSize : Int)) ≤
        node.key - (headerSize : Int) ∧
      (sb.disk blk).csumOk = true) ∧
    (∀ (sb : SB) (blk : Nat),
      (∃ node, read_node sb blk = .ok node) ∨
      read_node sb blk = .error (.fatal .badChecksum) ∨
      read_node sb blk = .error (.fatal .notSane)) := by
  constructor
  · intro sb blk node h
    obtain ⟨hc, hv, hk, hr, -⟩ := read_node_ok h
    obtain ⟨hne, hle, hsz⟩ := node_is_valid_spec hv
    refine ⟨?_, hle, hsz, hc⟩
    have : 0 ≤ node.records := by rw [hr]; positivity
    omega
  · intro sb blk
    unfold read_node
    split_ifs
    · left; exact ⟨_, rfl⟩
    · right; right; rfl
    · right; left; rfl

/-- Witness for C3 at the concrete scenario image. -/
theorem claim_C3_read_node_invariants_witness :
    0 < nodeOmapRootW.records ∧ nodeOmapRootW.key ≤ sbW.blocksize ∧
    nodeOmapRootW.records *
      (if node_has_fixed_kv_size nodeOmapRootW then (kvoffSize : Int) else (kvlocSize : Int)) ≤
      nodeOmapRootW.key - (headerSize : Int) ∧
    (sbW.disk 1024).csumOk = true :=
  claim_C3_read_node_invariants.1 sbW 1024 nodeOmapRootW (by rfl)

/-- C2: on any node accepted by `read_node`, whenever `node_locate_key` or
`node_locate_data` returns (rather than exiting fatally) the returned
`(offset, length)` satisfies `0 ≤ offset` and
`offset + length ≤ block_size`; and a variable-kv record of a non-root
node whose value table entry is `(off = 0, len = 1)` — a computed value
offset equal to `block_size` with length 1 — is rejected fatally. -/
theorem claim_C2_locator_bounds :
    (∀ (sb : SB) (blk : Nat) (node : Node) (i off len : Int),
      read_node sb blk = .ok node →
      (node_locate_key sb node i = .ok (off, len) →
        0 ≤ off ∧ off + len ≤ sb.blocksize) ∧
      (node_locate_data sb node i = .ok (off, len) →
        0 ≤ off ∧ off + len ≤ sb.blocksize)) ∧
    (∀ (sb : SB) (node : Node) (i : Int) (kOff kLen : Nat),
      0 ≤ i → i < node.records →
      node_has_fixed_kv_size node = false → node_is_root node = false →
      node.raw.entV i.toNat = ((kOff, kLen), (0, 1)) →
      node_locate_data sb node i = .error (.fatal .valueOOB)) := by
  constructor
  · intro sb blk node i off len hn
    have hkey : 0 ≤ node.key := read_node_key_nonneg hn
    constructor
    · intro h
      unfold node_locate_key at h
      split_ifs at h with h1 h2
      push_neg at h2
      injection h with h
      rw [Prod.ext_iff] at h
      obtain ⟨h3, h4⟩ := h
      subst h3; subst h4
      refine ⟨?_, h2⟩
      unfold key_loc
      split_ifs <;> positivity
    · intro h
      unfold node_locate_data at h
      split_ifs at h with h1 h2
      push_neg at h2
      injection h with h
      rw [Prod.ext_iff] at h
      obtain ⟨h3, h4⟩ := h
      subst h3; subst h4
      exact ⟨h2.1, h2.2⟩
  · intro sb node i kOff kLen h0 hi hfix hroot hent
    unfold node_locate_data
    rw [if_neg (by omega)]
    rw [if_pos]
    unfold data_loc
    rw [if_neg (by simp [hfix]), if_neg (by simp [hroot]), hent]
    right
    simp

/-! ## C6: the multi-match cursor advance -/

/-- `key_from_query` only reads the node, flags and located key range. -/
lemma key_from_query_congr {q1 q2 : QFrame} (hn : q1.node = q2.node)
    (hf : q1.flags = q2.flags) (ho : q1.keyOff = q2.keyOff)
    (hl : q1.keyLen = q2.keyLen) :
    key_from_query q1 = key_from_query q2 := by
  unfold key_from_query
  rw [hn, hf, ho, hl]

/-- Inversion of `record_key`. -/
lemma record_key_ok {sb : SB} {q : QFrame} {i : Int} {k : BKey}
    (h : record_key sb q i = .ok k) :
    ∃ ol, node_locate_key sb q.node i = .ok ol ∧
      key_from_query { q with keyOff := ol.1, keyLen := ol.2 } = .ok k := by
  unfold record_key at h
  cases hl : node_locate_key sb q.node i with
  | error e => rw [hl] at h; cases h
  | ok ol =>
    rw [hl] at h
    refine ⟨ol, rfl, ?_⟩
    cases ol
    simpa [bind, Except.bind] using h

/-- C6: for a multi-match query, `node_next` reports no-more-data when the
query is `DONE`; reports the cross-node signal when the cursor index is 0;
and otherwise decrements the index and re-locates the key, exiting fatally
if the new key is greater than the stored cursor key, reporting
no-more-data on an inexact match at a leaf under `EXACT`, and otherwise
succeeding with the located value, with `DONE` set exactly when the new
key differs from the cursor key. -/
theorem claim_C6_node_next_behaviour
    (sb : SB) (cmp : BKey → BKey → Int) (q : QFrame) (qk curr : BKey)
    (off len : Int) (hm : q.flags.multiple = true) (hk : q.key = some qk) :
    (q.flags.done = true → node_next sb cmp q = .error .enodata) ∧
    (q.flags.done = false → q.index = 0 → node_next sb cmp q = .error .eagain) ∧
    (q.flags.done = false → q.index ≠ 0 →
      record_key sb q (q.index - 1) = .ok curr →
      (0 < cmp curr qk → node_next sb cmp q = .error (.fatal .keysOutOfOrder)) ∧
      (cmp curr qk ≤ 0 → cmp curr qk ≠ 0 → node_is_leaf q.node = true →
        q.flags.exact = true → node_next sb cmp q = .error .enodata) ∧
      (cmp curr qk ≤ 0 →
        ¬(cmp curr qk ≠ 0 ∧ node_is_leaf q.node = true ∧ q.flags.exact = true) →
        node_locate_data sb q.node (q.index - 1) = .ok (off, len) → len ≠ 0 →
        ∃ q', node_next sb cmp q = .ok q' ∧ q'.index = q.index - 1 ∧
          q'.off = off ∧ q'.len = len ∧ q'.node = q.node ∧
          (q'.flags.done = true ↔ cmp curr qk ≠ 0))) := by
  refine ⟨fun hd => ?_, fun hd hi => ?_, fun hd hi hrk => ?_⟩
  · unfold node_next; rw [if_pos hd]
  · unfold node_next; rw [if_neg (by simp [hd]), if_pos hi]
  · obtain ⟨ol, hl, hkq⟩ := record_key_ok hrk
    obtain ⟨kOff, kLen⟩ := ol
    have hkq' : key_from_query
        { q with index := q.index - 1, keyOff := kOff, keyLen := kLen } = .ok curr := by
      rw [key_from_query_congr rfl rfl rfl rfl]; exact hkq
    have hbase : node_next sb cmp q =
        (if 0 < cmp curr qk then .error (.fatal .keysOutOfOrder)
         else if cmp curr qk ≠ 0 ∧ node_is_leaf q.node ∧ q.flags.exact then
           .error .enodata
         else
           match node_locate_data sb q.node (q.index - 1) with
           | .error e => .error e
           | .ok (off, len) =>
             if len = 0 then .error (.fatal .corruptedValue)
             else if cmp curr qk ≠ 0 then
               .ok { q with index := q.index - 1, keyOff := kOff, keyLen := kLen,
                            off := off, len := len,
                            flags := { q.flags with done := true } }
             else .ok { q with index := q.index - 1, keyOff := kOff,
                               keyLen := kLen, off := off, len := len }) := by
      unfold node_next
      rw [if_neg (by simp [hd]), if_neg hi, hl]
      have hkq2 := hkq'
      rw [hk] at hkq2
      simp only [hk, hkq2, Option.iget_some]
    refine ⟨fun hgt => ?_, fun hle hne hleaf hex => ?_, fun hle hnot hld hlen => ?_⟩
    · rw [hbase, if_pos hgt]
    · rw [hbase, if_neg (by omega), if_pos ⟨hne, by simp [hleaf], by simp [hex]⟩]
    · rw [hbase, if_neg (by omega), if_neg (by
        rintro ⟨a, b, c⟩
        exact hnot ⟨a, by simpa using b, by simpa using c⟩)]
      simp only [hld]
      rw [if_neg hlen]
      by_cases hce : cmp curr qk ≠ 0
      · rw [if_pos hce]
        exact ⟨_, rfl, rfl, rfl, rfl, rfl, by simp [hce]⟩
      · rw [if_neg hce]
        refine ⟨_, rfl, rfl, rfl, rfl, rfl, ?_⟩
        simp only [hce, iff_false]
        simp [hd]

/-- Witness for C2 at the concrete scenario image (root node, record 0). -/
theorem claim_C2_locator_bounds_witness :
    (node_locate_key sbW nodeOmapRootW 0 = .ok (120, 16) →
      (0 : Int) ≤ 120 ∧ (120 : Int) + 16 ≤ sbW.blocksize) ∧
    (node_locate_data sbW nodeOmapRootW 0 = .ok (120, 16) →
      (0 : Int) ≤ 120 ∧ (120 : Int) + 16 ≤ sbW.blocksize) :=
  (claim_C2_locator_bounds.1 sbW 1024 nodeOmapRootW 0 120 16 (by rfl))

/-- The in-memory node for the scenario leaf. -/
def nodeOmapLeafW : Node := node_from_raw rawOmapLeafW 2048

/-- A concrete multi-match query frame on the scenario leaf, cursor past
the last record. -/
def qC6 : QFrame :=
  { node := nodeOmapLeafW
    key := some ⟨7, 0, 0, none⟩
    flags := { omap := true, multiple := true }
    index := 1
    keyOff := 0, keyLen := 0, off := 0, len := 0
    depth := 1 }

/-- Witness for C6: advancing the cursor on the concrete leaf returns its
record 0 with the cursor key still matching, so `DONE` stays clear. -/
theorem claim_C6_node_next_behaviour_witness :
    ∃ q', node_next sbW cmpK qC6 = .ok q' ∧ q'.index = qC6.index - 1 ∧
      q'.off = 4080 ∧ q'.len = 16 ∧ q'.node = qC6.node ∧
      (q'.flags.done = true ↔ cmpK ⟨7, 0, 0, none⟩ ⟨7, 0, 0, none⟩ ≠ 0) :=
  ((claim_C6_node_next_behaviour sbW cmpK qC6 ⟨7, 0, 0, none⟩ ⟨7, 0, 0, none⟩
      4080 16 rfl rfl).2.2 rfl (by decide) (by rfl)).2.2
    (by decide) (by decide) (by rfl) (by decide)

/-! ## C5: the object-map lookup -/

/-- C5: `omap_lookup_block` runs an exact `OMAP` query for a key holding
only the target oid and never surfaces a query failure code: a query that
ends in no-data is turned into the fatal "Omap record missing" exit; on
success it decodes the 16-byte leaf value (any other located length is the
fatal wrong-value-size exit) and returns its `paddr`; on the concrete
two-level omap of end-to-end scenario 1, looking up oid 7 yields block
4096. -/
theorem claim_C5_omap_lookup :
    (∀ (sb : SB) (cmp : BKey → BKey → Int) (fuel : Nat) (tbl : Node) (id : Nat),
      omap_lookup_block sb cmp fuel tbl id ≠ .error .enodata ∧
      omap_lookup_block sb cmp fuel tbl id ≠ .error .eagain ∧
      ((btree_query sb cmp fuel (omap_query tbl id) []).res = .error .enodata →
        omap_lookup_block sb cmp fuel tbl id = .error (.fatal .omapMissing))) ∧
    (∀ q : QFrame, q.len ≠ 16 → bno_from_query q = .error (.fatal .wrongValSize)) ∧
    omap_lookup_block sbW cmpK 20 nodeOmapRootW 7 = .ok 4096 := by
  refine ⟨fun sb cmp fuel tbl id => ?_, fun q h => ?_, by rfl⟩
  · unfold omap_lookup_block omap_lookup_with
    cases hb : (btree_query sb cmp fuel (omap_query tbl id) []).res with
    | ok v =>
      obtain ⟨q', ps⟩ := v
      dsimp only
      refine ⟨?_, ?_, fun habs => by simp at habs⟩
      · unfold bno_from_query; split_ifs <;> simp
      · unfold bno_from_query; split_ifs <;> simp
    | error e => cases e <;> simp
  · unfold bno_from_query
    rw [if_pos h]

/-- Witness for C5: the wrong-length exit of `bno_from_query` and the
missing-record exit at oid 8 of the concrete scenario. -/
theorem claim_C5_omap_lookup_witness :
    bno_from_query qC6 = .error (.fatal .wrongValSize) ∧
    omap_lookup_block sbW cmpK 20 nodeOmapRootW 8 = .error (.fatal .omapMissing) :=
  ⟨claim_C5_omap_lookup.2.1 qC6 (by decide),
   (claim_C5_omap_lookup.1 sbW cmpK 20 nodeOmapRootW 8).2.2 (by rfl)⟩

/-! ## Shape lemmas for the in-node search -/

/-- `node_locate_key` fails only fatally. -/
lemma node_locate_key_error {sb : SB} {n : Node} {i : Int} {e : BErr}
    (h : node_locate_key sb n i = .error e) : ∃ f, e = .fatal f := by
  unfold node_locate_key at h
  split_ifs at h <;> · injection h with h; exact ⟨_, h.symm⟩

/-- `node_locate_data` fails only fatally. -/
lemma node_locate_data_error {sb : SB} {n : Node} {i : Int} {e : BErr}
    (h : node_locate_data sb n i = .error e) : ∃ f, e = .fatal f := by
  unfold node_locate_data at h
  split_ifs at h <;> · injection h with h; exact ⟨_, h.symm⟩

/-- `key_from_query` fails only fatally. -/
lemma key_from_query_error {q : QFrame} {e : BErr}
    (h : key_from_query q = .error e) : e = .fatal .bug := by
  unfold key_from_query at h
  rcases hc : q.flags.cat with _ | _ <;> rcases ho : q.flags.omap with _ | _ <;>
    rw [hc, ho] at h <;> dsimp only at h <;> simp_all

/-- `bisect_step` only moves the index of the frame. -/
lemma bisect_step_ok_frame {q q1 : QFrame} {left right c l1 r1 : Int}
    (h : bisect_step q left right c = .ok (q1, l1, r1)) :
    q1.node = q.node ∧ q1.flags = q.flags ∧ q1.key = q.key ∧
    q1.depth = q.depth ∧ q1.off = q.off ∧ q1.len = q.len := by
  unfold bisect_step at h
  split_ifs at h <;>
    · injection h with h
      rw [Prod.ext_iff] at h
      obtain ⟨h1, -⟩ := h
      subst h1
      exact ⟨rfl, rfl, rfl, rfl, rfl, rfl⟩

/-- The bisection loop only moves the cursor fields of the frame. -/
lemma bisect_loop_ok_frame (sb : SB) (cmp : BKey → BKey → Int) (qkey : BKey) :
    ∀ (fuel : Nat) (q : QFrame) (left right c : Int) (q' : QFrame) (c' : Int),
      bisect_loop sb cmp qkey fuel q left right c = .ok (q', c') →
      q'.node = q.node ∧ q'.flags = q.flags ∧ q'.key = q.key ∧
      q'.depth = q.depth ∧ q'.off = q.off ∧ q'.len = q.len := by
  intro fuel
  induction fuel with
  | zero => intro q l r c q' c' h; cases h
  | succ n ih =>
    intro q l r c q' c' h
    unfold bisect_loop at h
    cases hs : bisect_step q l r c with
    | error e => rw [hs] at h; cases h
    | ok s =>
      obtain ⟨q1, l1, r1⟩ := s
      obtain ⟨e1, e2, e3, e4, e5, e6⟩ := bisect_step_ok_frame hs
      rw [hs] at h
      dsimp only at h
      cases hlk : node_locate_key sb q1.node q1.index with
      | error e => rw [hlk] at h; cases h
      | ok ol =>
        obtain ⟨kOff, kLen⟩ := ol
        rw [hlk] at h
        dsimp only at h
        cases hkf : key_from_query { q1 with keyOff := kOff, keyLen := kLen } with
        | error e => rw [hkf] at h; cases h
        | ok curr =>
          rw [hkf] at h
          dsimp only at h
          split_ifs at h with h1 h2
          · injection h with h
            rw [Prod.ext_iff] at h
            obtain ⟨h3, -⟩ := h
            subst h3
            exact ⟨e1, e2, e3, e4, e5, e6⟩
          · injection h with h
            rw [Prod.ext_iff] at h
            obtain ⟨h3, -⟩ := h
            subst h3
            exact ⟨e1, e2, e3, e4, e5, e6⟩
          · obtain ⟨f1, f2, f3, f4, f5, f6⟩ := ih _ _ _ _ _ _ h
            exact ⟨f1.trans e1, f2.trans e2, f3.trans e3, f4.trans e4,
                   f5.trans e5, f6.trans e6⟩

/-- The bisection loop never reports the cross-node signal. -/
lemma bisect_loop_not_eagain (sb : SB) (cmp : BKey → BKey → Int) (qkey : BKey) :
    ∀ (fuel : Nat) (q : QFrame) (left right c : Int),
      bisect_loop sb cmp qkey fuel q left right c ≠ .error .eagain := by
  intro fuel
  induction fuel with
  | zero => intro q l r c h; cases h
  | succ n ih =>
    intro q l r c h
    unfold bisect_loop at h
    cases hs : bisect_step q l r c with
    | error e =>
      rw [hs] at h
      injection h with h
      subst h
      unfold bisect_step at hs
      split_ifs at hs
      simp at hs
    | ok s =>
      obtain ⟨q1, l1, r1⟩ := s
      rw [hs] at h
      dsimp only at h
      cases hlk : node_locate_key sb q1.node q1.index with
      | error e =>
        rw [hlk] at h
        injection h with h
        obtain ⟨f, hf⟩ := node_locate_key_error hlk
        rw [hf] at h
        cases h
      | ok ol =>
        obtain ⟨kOff, kLen⟩ := ol
        rw [hlk] at h
        dsimp only at h
        cases hkf : key_from_query { q1 with keyOff := kOff, keyLen := kLen } with
        | error e =>
          rw [hkf] at h
          injection h with h
          rw [key_from_query_error hkf] at h
          cases h
        | ok curr =>
          rw [hkf] at h
          dsimp only at h
          split_ifs at h with h1 h2
          exact ih _ _ _ _ h

/-- `node_next` can only succeed with the node, target key and depth of
its input, and flags equal up to the `DONE` bit. -/
lemma node_next_ok_frame {sb : SB} {cmp : BKey → BKey → Int} {q q' : QFrame}
    (h : node_next sb cmp q = .ok q') :
    q'.node = q.node ∧ q'.key = q.key ∧ q'.depth = q.depth ∧
    (q'.flags = q.flags ∨ q'.flags = { q.flags with done := true }) := by
  unfold node_next at h
  split_ifs at h
  cases hlk : node_locate_key sb q.node (q.index - 1) with
  | error e => rw [hlk] at h; cases h
  | ok ol =>
    obtain ⟨kOff, kLen⟩ := ol
    rw [hlk] at h
    dsimp only at h
    cases hkf : key_from_query
        { q with index := q.index - 1, keyOff := kOff, keyLen := kLen } with
    | error e => rw [hkf] at h; cases h
    | ok curr =>
      rw [hkf] at h
      dsimp only at h
      split_ifs at h with h1 h2 h3
      · cases hld : node_locate_data sb q.node (q.index - 1) with
        | error e => rw [hld] at h; cases h
        | ok dl =>
          obtain ⟨off, len⟩ := dl
          rw [hld] at h
          dsimp only at h
          split_ifs at h with h5
          injection h with h
          subst h
          exact ⟨rfl, rfl, rfl, Or.inr rfl⟩
      · cases hld : node_locate_data sb q.node (q.index - 1) with
        | error e => rw [hld] at h; cases h
        | ok dl =>
          obtain ⟨off, len⟩ := dl
          rw [hld] at h
          dsimp only at h
          split_ifs at h with h5
          injection h with h
          subst h
          exact ⟨rfl, rfl, rfl, Or.inl rfl⟩

/-- `multiple_update` only touches the `DONE` and `NEXT` flag bits. -/
lemma multiple_update_frame (q : QFrame) (c : Int) :
    (multiple_update q c).node = q.node ∧ (multiple_update q c).key = q.key ∧
    (multiple_update q c).depth = q.depth ∧
    (multiple_update q c).index = q.index ∧
    (multiple_update q c).flags.multiple = q.flags.multiple := by
  unfold multiple_update
  split_ifs <;> exact ⟨rfl, rfl, rfl, rfl, rfl⟩

/-- On a single query `multiple_update` is the identity. -/
lemma multiple_update_single {q : QFrame} (h : q.flags.multiple = false)
    (c : Int) : multiple_update q c = q := by
  unfold multiple_update
  rw [if_neg (by simp [h])]

/-- `node_query` can only succeed with the node, target key and depth of
its input. -/
lemma node_query_ok_frame {sb : SB} {cmp : BKey → BKey → Int} {fuel : Nat}
    {q q' : QFrame} (h : node_query sb cmp fuel q = .ok q') :
    q'.node = q.node ∧ q'.key = q.key ∧ q'.depth = q.depth := by
  unfold node_query at h
  split_ifs at h with h1
  · obtain ⟨a, b, c, -⟩ := node_next_ok_frame h
    exact ⟨a, b, c⟩
  · cases hb : bisect_loop sb cmp q.key.iget fuel q 0 0 1 with
    | error e => rw [hb] at h; cases h
    | ok s =>
      obtain ⟨q1, c1⟩ := s
      obtain ⟨e1, e2, e3, e4, -, -⟩ := bisect_loop_ok_frame sb cmp _ _ _ _ _ _ _ _ hb
      rw [hb] at h
      dsimp only at h
      split_ifs at h with g1 g2
      cases hld : node_locate_data sb q1.node q1.index with
      | error e => rw [hld] at h; cases h
      | ok dl =>
        obtain ⟨off, len⟩ := dl
        rw [hld] at h
        dsimp only at h
        split_ifs at h with g3
        injection h with h
        subst h
        obtain ⟨m1, m2, m3, -, -⟩ := multiple_update_frame q1 c1
        exact ⟨m1.trans e1, m2.trans e3, m3.trans e4⟩

/-- With the `NEXT` flag clear, `node_query` never reports the cross-node
signal. -/
lemma node_query_not_eagain {sb : SB} {cmp : BKey → BKey → Int} {fuel : Nat}
    {q : QFrame} (hn : q.flags.next = false) :
    node_query sb cmp fuel q ≠ .error .eagain := by
  intro h
  unfold node_query at h
  rw [if_neg (by simp [hn])] at h
  cases hb : bisect_loop sb cmp q.key.iget fuel q 0 0 1 with
  | error e =>
    rw [hb] at h
    injection h with h
    subst h
    exact bisect_loop_not_eagain sb cmp _ _ _ _ _ _ hb
  | ok s =>
    obtain ⟨q1, c1⟩ := s
    rw [hb] at h
    dsimp only at h
    split_ifs at h with g1 g2
    · simp at h
    · simp at h
    · cases hld : node_locate_data sb q1.node q1.index with
      | error e =>
        rw [hld] at h
        injection h with h
        obtain ⟨f, hf⟩ := node_locate_data_error hld
        rw [hf] at h
        cases h
      | ok dl =>
        obtain ⟨off, len⟩ := dl
        rw [hld] at h
        dsimp only at h
        split_ifs at h with g3
        all_goals simp at h

/-- A successful `node_query` on a single query leaves the flags
unchanged. -/
lemma node_query_single_flags {sb : SB} {cmp : BKey → BKey → Int} {fuel : Nat}
    {q q' : QFrame} (hn : q.flags.next = false) (hm : q.flags.multiple = false)
    (h : node_query sb cmp fuel q = .ok q') : q'.flags = q.flags := by
  unfold node_query at h
  rw [if_neg (by simp [hn])] at h
  cases hb : bisect_loop sb cmp q.key.iget fuel q 0 0 1 with
  | error e => rw [hb] at h; cases h
  | ok s =>
    obtain ⟨q1, c1⟩ := s
    obtain ⟨-, e2, -, -, -, -⟩ := bisect_loop_ok_frame sb cmp _ _ _ _ _ _ _ _ hb
    rw [hb] at h
    dsimp only at h
    split_ifs at h with g1 g2
    cases hld : node_locate_data sb q1.node q1.index with
    | error e => rw [hld] at h; cases h
    | ok dl =>
      obtain ⟨off, len⟩ := dl
      rw [hld] at h
      dsimp only at h
      split_ifs at h with g3
      injection h with h
      subst h
      show (multiple_update q1 c1).flags = q.flags
      rw [multiple_update_single (by rw [e2]; exact hm)]
      exact e2

/-! ## C7: the depth limit of the descender -/

/-- C7: `btree_query` checks the depth bound before every in-node search,
so every `node_query` invocation (recorded in the ghost depth trace)
happens at depth at most 11; a query already at depth 12 or more is
answered by the fatal too-deep exit (whenever the model has fuel to run
one iteration at all); and the record returned by a successful query lies
at depth at most 11. -/
theorem claim_C7_depth_limit (sb : SB) (cmp : BKey → BKey → Int) :
    ∀ (fuel : Nat) (q : QFrame) (parents : List QFrame),
      (∀ d ∈ (btree_query sb cmp fuel q parents).depths, d ≤ 11) ∧
      (12 ≤ q.depth → 1 ≤ fuel →
        (btree_query sb cmp fuel q parents).res = .error (.fatal .tooDeep)) ∧
      (∀ q' ps, (btree_query sb cmp fuel q parents).res = .ok (q', ps) →
        q'.depth ≤ 11) := by
  intro fuel
  induction fuel with
  | zero =>
    intro q parents
    refine ⟨by simp [btree_query], fun _ hf => by omega, fun q' ps h => ?_⟩
    cases h
  | succ n ih =>
    intro q parents
    by_cases hd : 12 ≤ q.depth
    · refine ⟨?_, fun _ _ => ?_, fun q' ps h => ?_⟩
      · unfold btree_query
        rw [if_pos hd]
        simp
      · unfold btree_query
        rw [if_pos hd]
      · unfold btree_query at h
        rw [if_pos hd] at h
        cases h
    · have hd11 : q.depth ≤ 11 := by omega
      unfold btree_query
      rw [if_neg hd]
      cases hnq : node_query sb cmp n q with
      | error e =>
        dsimp only
        by_cases he : e = .eagain
        · rw [if_pos he]
          cases parents with
          | nil =>
            refine ⟨by simp [reascend, hd11], fun h12 _ => by omega,
              fun q' ps h => ?_⟩
            rw [show (reascend (fun a b => btree_query sb cmp n a b) q []).res =
              .error .enodata from rfl] at h
            cases h
          | cons p ps =>
            unfold reascend
            dsimp only
            refine ⟨?_, fun h12 _ => by omega,
              fun q' ps' h => (ih p ps).2.2 q' ps' h⟩
            intro d hdm
            rcases List.mem_cons.1 hdm with rfl | hdm
            · exact hd11
            · exact (ih p ps).1 d hdm
        · rw [if_neg he]
          refine ⟨by simpa using hd11, fun h12 _ => by omega, fun q' ps h => ?_⟩
          cases h
      | ok q' =>
        obtain ⟨-, -, hqd⟩ := node_query_ok_frame hnq
        dsimp only
        by_cases hleaf : node_is_leaf q'.node = true
        · rw [if_pos hleaf]
          refine ⟨by simpa using hd11, fun h12 _ => by omega, fun q2 ps2 h => ?_⟩
          cases h
          omega
        · rw [if_neg hleaf]
          cases hcq : child_from_query q' with
          | error e =>
            refine ⟨by simpa using hd11, fun h12 _ => by omega, fun q2 ps2 h => ?_⟩
            cases h
          | ok child_id =>
            dsimp only
            cases hblk : (if q'.flags.omap = true then .ok child_id
                else
                  omap_lookup_with (fun a b => btree_query sb cmp n a b)
                    sb.omapRoot child_id : BRes Nat) with
            | error e =>
              dsimp only
              refine ⟨by simpa using hd11, fun h12 _ => by omega, fun q2 ps2 h => ?_⟩
              cases h
            | ok child_blk =>
              dsimp only
              cases hrd : read_node sb child_blk with
              | error e =>
                dsimp only
                refine ⟨by simpa using hd11, fun h12 _ => by omega, fun q2 ps2 h => ?_⟩
                cases h
              | ok child =>
                dsimp only
                by_cases hoid : child.oid ≠ child_id
                · rw [if_pos (by simpa using hoid)]
                  refine ⟨by simpa using hd11, fun h12 _ => by omega, fun q2 ps2 h => ?_⟩
                  cases h
                · rw [if_neg (by simpa using hoid)]
                  dsimp only
                  refine ⟨?_, fun h12 _ => by omega, fun q2 ps2 h => ?_⟩
                  · intro d hdm
                    rcases List.mem_cons.1 hdm with rfl | hdm
                    · exact hd11
                    · exact (ih _ _).1 d hdm
                  · exact (ih _ _).2.2 q2 ps2 h

/-- Witness for C7: on the concrete image, a query already at depth 12 is
answered by the fatal too-deep exit. -/
theorem claim_C7_depth_limit_witness :
    (btree_query sbW cmpK 20 { qC6 with depth := 12 } []).res =
      .error (.fatal .tooDeep) :=
  (claim_C7_depth_limit sbW cmpK 20 { qC6 with depth := 12 } []).2.1
    (by decide) (by decide)

/-! ## C10: single-match queries never cross nodes -/

/-- C10: the cross-node signal `-EAGAIN` arises only in `node_next`, which
runs only on queries carrying the `NEXT` flag, and `NEXT` is set only on
`MULTIPLE` queries; hence `node_query` never reports it for a query
without `NEXT`, and the re-ascend branch of `btree_query` runs zero times
for a single-match query. -/
theorem claim_C10_single_no_reascend :
    (∀ (sb : SB) (cmp : BKey → BKey → Int) (fuel : Nat) (q : QFrame),
      q.flags.next = false → node_query sb cmp fuel q ≠ .error .eagain) ∧
    (∀ (sb : SB) (cmp : BKey → BKey → Int) (fuel : Nat) (q : QFrame)
        (parents : List QFrame),
      q.flags.multiple = false → q.flags.next = false →
      (btree_query sb cmp fuel q parents).reascends = 0) := by
  constructor
  · intro sb cmp fuel q hn
    exact node_query_not_eagain hn
  · intro sb cmp fuel
    induction fuel with
    | zero => intro q parents hm hn; rfl
    | succ n ih =>
      intro q parents hm hn
      unfold btree_query
      by_cases hd : 12 ≤ q.depth
      · rw [if_pos hd]
      · rw [if_neg hd]
        cases hnq : node_query sb cmp n q with
        | error e =>
          dsimp only
          have hne : e ≠ .eagain := fun habs =>
            node_query_not_eagain hn (by rw [hnq, habs])
          rw [if_neg hne]
        | ok q' =>
          dsimp only
          have hfl := node_query_single_flags hn hm hnq
          have hm' : q'.flags.multiple = false := by rw [hfl]; exact hm
          have hn' : q'.flags.next = false := by rw [hfl]; exact hn
          by_cases hleaf : node_is_leaf q'.node = true
          · rw [if_pos hleaf]
          · rw [if_neg hleaf]
            cases hcq : child_from_query q' with
            | error e => rfl
            | ok child_id =>
              dsimp only
              cases hblk : (if q'.flags.omap = true then .ok child_id
                  else
                    omap_lookup_with (fun a b => btree_query sb cmp n a b)
                      sb.omapRoot child_id : BRes Nat) with
              | error e => rfl
              | ok child_blk =>
                dsimp only
                cases hrd : read_node sb child_blk with
                | error e => rfl
                | ok child =>
                  dsimp only
                  by_cases hoid : child.oid ≠ child_id
                  · rw [if_pos (by simpa using hoid)]
                  · rw [if_neg (by simpa using hoid)]
                    rw [if_neg (by simp [hm'])]
                    dsimp only
                    exact ih _ _ (by simpa using hm') (by simpa using hn')

/-- Witness for C10: the concrete single-match omap lookup query crosses
no nodes and re-ascends zero times. -/
theorem claim_C10_single_no_reascend_witness :
    node_query sbW cmpK 20 (omap_query nodeOmapRootW 7) ≠ .error .eagain ∧
    (btree_query sbW cmpK 20 (omap_query nodeOmapRootW 7) []).reascends = 0 :=
  ⟨claim_C10_single_no_reascend.1 sbW cmpK 20 _ (by decide),
   claim_C10_single_no_reascend.2 sbW cmpK 20 _ [] (by decide) (by decide)⟩

/-! ## C8: child loading for internal records of the validator -/

/-- C8: for a nonleaf record the validator requires the located value to
have length exactly 8 (else the fatal wrong-value-size exit); the child
block is the omap translation of the stored child oid when an omap root is
supplied and the oid itself otherwise; and the loaded child must carry
that oid in its header, a mismatch being the fatal wrong-object-id exit —
so a successfully loaded child always satisfies `child.oid = child_id`. -/
theorem claim_C8_child_load (sb : SB) (cmp : BKey → BKey → Int) (fuel : Nat)
    (root : Node) (i : Nat) (omapRoot : Option Node) (off len : Int) :
    (node_locate_data sb root (i : Int) = .ok (off, len) → len ≠ 8 →
      load_child sb cmp fuel root i omapRoot = .error (.fatal .wrongValSize)) ∧
    (node_locate_data sb root (i : Int) = .ok (off, 8) →
      (load_child sb cmp fuel root i none =
        (match read_node sb (root.raw.readU64 off) with
         | .error e => .error e
         | .ok child =>
           if root.raw.readU64 off ≠ child.oid then .error (.fatal .wrongOid)
           else .ok child)) ∧
      (∀ om bno,
        omap_lookup_block sb cmp fuel om (root.raw.readU64 off) = .ok bno →
        load_child sb cmp fuel root i (some om) =
          (match read_node sb bno with
           | .error e => .error e
           | .ok child =>
             if root.raw.readU64 off ≠ child.oid then .error (.fatal .wrongOid)
             else .ok child))) ∧
    (∀ child, load_child sb cmp fuel root i omapRoot = .ok child →
      ∃ off2, node_locate_data sb root (i : Int) = .ok (off2, 8) ∧
        child.oid = root.raw.readU64 off2) := by
  refine ⟨fun hld hlen => ?_, fun hld => ⟨?_, fun om bno hob => ?_⟩,
    fun child h => ?_⟩
  · unfold load_child
    rw [hld]
    dsimp only
    rw [if_pos hlen]
  · unfold load_child
    rw [hld]
    dsimp only
    rw [if_neg (by simp)]
  · unfold load_child
    rw [hld]
    dsimp only
    rw [if_neg (by simp), hob]
  · unfold load_child at h
    cases hld : node_locate_data sb root (i : Int) with
    | error e => rw [hld] at h; cases h
    | ok dl =>
      obtain ⟨off2, len2⟩ := dl
      rw [hld] at h
      dsimp only at h
      split_ifs at h with hl
      push_neg at hl
      subst hl
      cases omapRoot with
      | none =>
        dsimp only at h
        cases hrd : read_node sb (root.raw.readU64 off2) with
        | error e => rw [hrd] at h; cases h
        | ok child2 =>
          rw [hrd] at h
          dsimp only at h
          split_ifs at h with ho
          injection h with h
          subst h
          push_neg at ho
          exact ⟨off2, rfl, ho.symm⟩
      | some om =>
        dsimp only at h
        cases hob : omap_lookup_block sb cmp fuel om (root.raw.readU64 off2) with
        | error e => rw [hob] at h; cases h
        | ok bno =>
          rw [hob] at h
          dsimp only at h
          cases hrd : read_node sb bno with
          | error e => rw [hrd] at h; cases h
          | ok child2 =>
            rw [hrd] at h
            dsimp only at h
            split_ifs at h with ho
            injection h with h
            subst h
            push_neg at ho
            exact ⟨off2, rfl, ho.symm⟩

/-- Witness for C8: loading the child of the concrete root's record 0
succeeds, and the scenario's oid agreement holds. -/
theorem claim_C8_child_load_witness :
    load_child sbW cmpK 20 nodeOmapRootW 0 none =
      (match read_node sbW (nodeOmapRootW.raw.readU64 4008) with
       | .error e => .error e
       | .ok child =>
         if nodeOmapRootW.raw.readU64 4008 ≠ child.oid then
           .error (.fatal .wrongOid)
         else .ok child) :=
  ((claim_C8_child_load sbW cmpK 20 nodeOmapRootW 0 none 4008 8).2.1 (by rfl)).1

/-! ## C4: ordering of the keys seen by the validator -/

/-- The value of the `last_key` accumulator after a run of trace entries,
starting from `lk`: the key of the last entry (the source stores every
record key into `last_key` as it goes). -/
def lastKeyOf (lk : BKey) : List TEnt → BKey
  | [] => lk
  | e :: tr => lastKeyOf e.key tr

/-- The ordering facts the validator checks along a trace, starting from
the accumulator value `lk`: every entry's key is `≥` its DFS predecessor
under `cmp`, strictly so when the entry is a leaf record with a nonzero
index (the "keys repeated" check fires only there). -/
def goodChain (cmp : BKey → BKey → Int) : BKey → List TEnt → Prop
  | _, [] => True
  | lk, e :: tr =>
    (cmp lk e.key ≤ 0 ∧ (e.leaf = true → e.idx ≠ 0 → cmp lk e.key < 0)) ∧
    goodChain cmp e.key tr

lemma lastKeyOf_append (lk : BKey) (xs ys : List TEnt) :
    lastKeyOf lk (xs ++ ys) = lastKeyOf (lastKeyOf lk xs) ys := by
  induction xs generalizing lk with
  | nil => rfl
  | cons e xs ih =>
    simp only [List.cons_append, lastKeyOf]
    exact ih e.key

lemma goodChain_append {cmp : BKey → BKey → Int} (lk : BKey)
    (xs ys : List TEnt) :
    goodChain cmp lk (xs ++ ys) ↔
      goodChain cmp lk xs ∧ goodChain cmp (lastKeyOf lk xs) ys := by
  induction xs generalizing lk with
  | nil => simp [goodChain, lastKeyOf]
  | cons e xs ih =>
    simp only [List.cons_append, goodChain, lastKeyOf, and_assoc]
    exact and_congr_right fun _ => and_congr_right fun _ => ih e.key

/-- The main invariant of the validator loop: a successful run over some
record indices appends a trace whose checked chain holds, and leaves the
accumulator at the last key of that chain. -/
lemma parse_records_good (sb : SB) (cmp : BKey → BKey → Int) (fuel : Nat)
    (root : Node) (omapRoot : Option Node)
    (childGo : Node → BKey → BRes (BKey × List TEnt))
    (hchild : ∀ child lk l' sub, childGo child lk = .ok (l', sub) →
      goodChain cmp lk sub ∧ l' = lastKeyOf lk sub) :
    ∀ (idxs : List Nat) (lk : BKey) (acc : List TEnt) (l' : BKey)
      (tr : List TEnt),
      parse_records sb cmp fuel root omapRoot childGo idxs lk acc = .ok (l', tr) →
      ∃ new, tr = acc ++ new ∧ goodChain cmp lk new ∧ l' = lastKeyOf lk new := by
  intro idxs
  induction idxs with
  | nil =>
    intro lk acc l' tr h
    injection h with h
    rw [Prod.ext_iff] at h
    obtain ⟨h1, h2⟩ := h
    dsimp only at h1 h2
    subst h1
    subst h2
    exact ⟨[], by simp, trivial, rfl⟩
  | cons i rest ih =>
    intro lk acc l' tr h
    unfold parse_records at h
    cases hk : subtree_key sb root omapRoot i with
    | error e => rw [hk] at h; cases h
    | ok curr =>
      rw [hk] at h
      dsimp only at h
      split_ifs at h with h1 h2 h3
      · -- leaf record
        obtain ⟨new, htr, hg, hl⟩ := ih curr _ l' tr h
        refine ⟨⟨root.blockNr, i, node_is_leaf root, curr⟩ :: new,
          by simpa using htr, ⟨⟨by dsimp only; omega, fun hlf hi => ?_⟩, hg⟩, hl⟩
        have hne : ¬(i ≠ 0 ∧ node_is_leaf root = true ∧ cmp lk curr = 0) := h2
        push_neg at hne
        have h0 := hne (by simpa using hi) (by simpa using hlf)
        dsimp only
        omega
      · -- internal record
        cases hlc : load_child sb cmp fuel root i omapRoot with
        | error e => rw [hlc] at h; cases h
        | ok child =>
          rw [hlc] at h
          dsimp only at h
          cases hgo : childGo child curr with
          | error e => rw [hgo] at h; cases h
          | ok p =>
            obtain ⟨l2, sub⟩ := p
            rw [hgo] at h
            dsimp only at h
            obtain ⟨hsub, hl2⟩ := hchild child curr l2 sub hgo
            obtain ⟨new, htr, hg, hl⟩ := ih l2 _ l' tr h
            refine ⟨⟨root.blockNr, i, node_is_leaf root, curr⟩ :: (sub ++ new),
              by simpa using htr,
              ⟨⟨by dsimp only; omega, fun hlf _ => absurd hlf (by simpa using h3)⟩, ?_⟩, ?_⟩
            · rw [goodChain_append]
              exact ⟨hsub, hl2 ▸ hg⟩
            · show l' = lastKeyOf curr (sub ++ new)
              rw [lastKeyOf_append, ← hl2]
              exact hl

/-- The checked chain holds on the full trace of every completed
`parse_subtree` run, and the returned key is the chain's last key. -/
lemma parse_subtree_good (sb : SB) (cmp : BKey → BKey → Int) :
    ∀ (fuel : Nat) (root : Node) (lk : BKey) (omapRoot : Option Node)
      (l' : BKey) (tr : List TEnt),
      parse_subtree sb cmp fuel root lk omapRoot = .ok (l', tr) →
      goodChain cmp lk tr ∧ l' = lastKeyOf lk tr := by
  intro fuel
  induction fuel with
  | zero => intro root lk omapRoot l' tr h; cases h
  | succ n ih =>
    intro root lk omapRoot l' tr h
    unfold parse_subtree at h
    obtain ⟨new, htr, hg, hl⟩ :=
      parse_records_good sb cmp n root omapRoot _
        (fun child lk2 l2 sub hgo => ih child lk2 omapRoot l2 sub hgo)
        (List.range root.records.toNat) lk [] l' tr h
    rw [htr]
    simpa using ⟨hg, hl⟩

/-- The checked chain makes `last_key :: keys` a `≤`-chain under `cmp`. -/
lemma goodChain_chain' {cmp : BKey → BKey → Int} :
    ∀ {lk : BKey} {tr : List TEnt}, goodChain cmp lk tr →
      List.Chain' (fun a b => cmp a b ≤ 0) (lk :: tr.map (fun e => e.key)) := by
  intro lk tr
  induction tr generalizing lk with
  | nil => intro _; simp
  | cons e tr ih =>
    intro hg
    obtain ⟨⟨h1, -⟩, hg⟩ := hg
    exact List.Chain'.cons h1 (ih hg)

/-- A two-leaf omap image whose leaves repeat key `oid = 7` across the
leaf boundary: internal root at block 3000 with two records (both keys 7,
children 3001 and 3002), each child a leaf with the single key 7. -/
def rawDupRoot : RawBlock :=
  { btnFlags := 5, btnNkeys := 2, tsOff := 0, tsLen := 64, fsOff := 0,
    fsLen := 0, oid := 3000, csumOk := true,
    entF := fun i => (16 * i, 48 + 8 * i), entV := fun _ => ((0, 0), (0, 0)),
    omapKeyAt := fun _ _ => ⟨7, 0, 0, none⟩,
    catKeyAt := fun _ _ => default,
    readU64 := fun off => if off = 4008 then 3001
                          else if off = 4000 then 3002 else 0 }

/-- A leaf of the duplicate-key image, holding the single key `oid = 7`. -/
def rawDupLeaf (oid : Nat) : RawBlock :=
  { btnFlags := 6, btnNkeys := 1, tsOff := 0, tsLen := 64, fsOff := 0,
    fsLen := 0, oid := oid, csumOk := true,
    entF := fun _ => (0, 16), entV := fun _ => ((0, 0), (0, 0)),
    omapKeyAt := fun _ _ => ⟨7, 0, 0, none⟩,
    catKeyAt := fun _ _ => default,
    readU64 := fun _ => 0 }

/-- The root node of the duplicate-key image. -/
def nodeDupRoot : Node := node_from_raw rawDupRoot 3000

/-- The duplicate-key image. -/
def sbX : SB :=
  { blocksize := 4096
    disk := fun b => if b = 3000 then rawDupRoot
                     else if b = 3001 then rawDupLeaf 3001
                     else if b = 3002 then rawDupLeaf 3002 else rawJunk
    omapRoot := nodeDupRoot }

/-- The DFS trace the validator records on the duplicate-key image. -/
def dupTraceX : List TEnt :=
  [⟨3000, 0, false, ⟨7, 0, 0, none⟩⟩, ⟨3001, 0, true, ⟨7, 0, 0, none⟩⟩,
   ⟨3000, 1, false, ⟨7, 0, 0, none⟩⟩, ⟨3002, 0, true, ⟨7, 0, 0, none⟩⟩]

/-- Counterexample to C4: on an image whose full left-to-right leaf
traversal repeats the key `oid = 7` across a leaf boundary (first record
of the second leaf equal to the last record of the first), `parse_subtree`
completes successfully instead of aborting with "keys repeated": the
repeated-key check requires `i != 0 && node_is_leaf(root)`, so it never
compares keys across a leaf boundary. -/
theorem claim_C4_counterexample :
    parse_subtree sbX cmpK 5 nodeDupRoot ⟨0, 0, 0, none⟩ none =
      .ok (⟨7, 0, 0, none⟩, dupTraceX) ∧
    (dupTraceX.filter (fun e => e.leaf)).map (fun e => e.key) =
      [⟨7, 0, 0, none⟩, ⟨7, 0, 0, none⟩] := by
  constructor
  · rfl
  · rfl

/-- C4, amended: a completed `parse_subtree` traversal satisfies every
check the validator makes — each record key is `≥` its DFS predecessor,
strictly `>` when the record is a leaf record with index `≠ 0` — so, for a
transitive comparator, the leaf keys of the full traversal are
non-decreasing; and a duplicate between consecutive records of the same
leaf is answered by the fatal "keys repeated" exit when the loop reaches
it.  (Duplicates across a leaf boundary — previous leaf's last record
equal to the next leaf's first — pass the checks; see the
counterexample.) -/
theorem claim_C4_leaf_ordering_amended :
    (∀ (sb : SB) (cmp : BKey → BKey → Int) (fuel : Nat) (root : Node)
        (lk l' : BKey) (omapRoot : Option Node) (tr : List TEnt),
      parse_subtree sb cmp fuel root lk omapRoot = .ok (l', tr) →
      goodChain cmp lk tr) ∧
    (∀ (sb : SB) (cmp : BKey → BKey → Int) (fuel : Nat) (root : Node)
        (lk l' : BKey) (omapRoot : Option Node) (tr : List TEnt),
      (∀ a b c, cmp a b ≤ 0 → cmp b c ≤ 0 → cmp a c ≤ 0) →
      parse_subtree sb cmp fuel root lk omapRoot = .ok (l', tr) →
      List.Chain' (fun a b => cmp a b ≤ 0)
        ((tr.filter (fun e => e.leaf)).map (fun e => e.key))) ∧
    (∀ (sb : SB) (cmp : BKey → BKey → Int) (fuel : Nat) (root : Node)
        (omapRoot : Option Node)
        (childGo : Node → BKey → BRes (BKey × List TEnt))
        (i : Nat) (rest : List Nat) (lk : BKey) (acc : List TEnt)
        (curr : BKey),
      node_is_leaf root = true → i ≠ 0 →
      subtree_key sb root omapRoot i = .ok curr → cmp lk curr = 0 →
      parse_records sb cmp fuel root omapRoot childGo (i :: rest) lk acc =
        .error (.fatal .keysRepeated)) := by
  refine ⟨fun sb cmp fuel root lk l' omapRoot tr h =>
      (parse_subtree_good sb cmp fuel root lk omapRoot l' tr h).1,
    fun sb cmp fuel root lk l' omapRoot tr htrans h => ?_,
    fun sb cmp fuel root omapRoot childGo i rest lk acc curr hlf hi hk hc => ?_⟩
  · have hg := (parse_subtree_good sb cmp fuel root lk omapRoot l' tr h).1
    have hch := goodChain_chain' hg
    letI : IsTrans BKey (fun a b => cmp a b ≤ 0) := ⟨fun a b c => htrans a b c⟩
    have hpw := List.chain'_iff_pairwise.mp hch
    have hsub : ((tr.filter (fun e => e.leaf)).map (fun e => e.key)).Sublist
        (lk :: tr.map (fun e => e.key)) :=
      ((tr.filter_sublist).map (fun e => e.key)).trans
        (List.sublist_cons_self lk _)
    exact (hpw.sublist hsub).chain'
  · unfold parse_records
    rw [hk]
    dsimp only
    rw [if_neg (by omega), if_pos ⟨hi, hlf, hc⟩]

/-- A leaf with two records that repeat the key `oid = 7`. -/
def rawDupLeaf2 : RawBlock :=
  { btnFlags := 6, btnNkeys := 2, tsOff := 0, tsLen := 64, fsOff := 0,
    fsLen := 0, oid := 3005, csumOk := true,
    entF := fun i => (16 * i, 16 + 16 * i), entV := fun _ => ((0, 0), (0, 0)),
    omapKeyAt := fun _ _ => ⟨7, 0, 0, none⟩,
    catKeyAt := fun _ _ => default,
    readU64 := fun _ => 0 }

/-- Witness for the amended C4 at the concrete image: the checked chain of
the duplicate-key traversal, and the keys-repeated exit on a leaf with two
equal records. -/
theorem claim_C4_leaf_ordering_amended_witness :
    goodChain cmpK ⟨0, 0, 0, none⟩ dupTraceX ∧
    parse_records sbX cmpK 5 (node_from_raw rawDupLeaf2 3005) none
        (fun child lk => parse_subtree sbX cmpK 4 child lk none)
        [1] ⟨7, 0, 0, none⟩ [] = .error (.fatal .keysRepeated) :=
  ⟨claim_C4_leaf_ordering_amended.1 sbX cmpK 5 nodeDupRoot ⟨0, 0, 0, none⟩
      ⟨7, 0, 0, none⟩ none dupTraceX (by rfl),
   claim_C4_leaf_ordering_amended.2.2 sbX cmpK 5
      (node_from_raw rawDupLeaf2 3005) none
      (fun child lk => parse_subtree sbX cmpK 4 child lk none)
      1 [] ⟨7, 0, 0, none⟩ [] ⟨7, 0, 0, none⟩ (by rfl) (by decide) (by rfl)
      (by decide)⟩

/-! ## C9: termination of the bisection loop -/

/-- Termination measure for the bisection loop on states satisfying
`0 ≤ left ≤ index ≤ right`: lexicographic in (interval width, distance of
the index from the right end), flattened into one natural number. -/
def bmeasure (left right index : Int) : Nat :=
  (right - left).toNat * ((right - left).toNat + 1) + (right - index).toNat

/-- The lower-half move of the bisection (`(left + right) / 2` on
non-negative C ints) stays inside `[left, right]`. -/
lemma tdiv_lower_bounds {l r : Int} (h0 : 0 ≤ l) (hlr : l ≤ r) :
    l ≤ Int.tdiv (l + r) 2 ∧ Int.tdiv (l + r) 2 ≤ r := by
  rw [Int.tdiv_eq_ediv (by omega) (by omega)]
  omega

/-- The upper-half move `DIV_ROUND_UP(left + right, 2)` stays inside
`[left, right]` and strictly advances when `left < right`. -/
lemma div_round_up_bounds {l r : Int} (h0 : 0 ≤ l) (hlr : l ≤ r) :
    l ≤ div_round_up (l + r) 2 ∧ div_round_up (l + r) 2 ≤ r ∧
    (l < r → l + 1 ≤ div_round_up (l + r) 2) := by
  unfold div_round_up
  rw [Int.tdiv_eq_ediv (by omega) (by omega)]
  omega

/-- Measure decrease for the shrink-right move of the loop. -/
lemma bmeasure_right {l r i i1 : Int} (h0 : 0 ≤ l) (hg : l ≤ i - 1)
    (hir : i ≤ r) (hi1l : l ≤ i1) (hi1r : i1 ≤ i - 1) :
    bmeasure l (i - 1) i1 < bmeasure l r i := by
  unfold bmeasure
  have ha : (i - 1 - l).toNat + 1 ≤ (r - l).toNat := by omega
  have hb : (i - 1 - i1).toNat ≤ (i - 1 - l).toNat := by omega
  calc (i - 1 - l).toNat * ((i - 1 - l).toNat + 1) + (i - 1 - i1).toNat
      ≤ (i - 1 - l).toNat * ((i - 1 - l).toNat + 1) + (i - 1 - l).toNat := by omega
    _ = (i - 1 - l).toNat * ((i - 1 - l).toNat + 2) := by ring
    _ ≤ ((r - l).toNat - 1) * ((r - l).toNat + 1) :=
        Nat.mul_le_mul (by omega) (by omega)
    _ < (r - l).toNat * ((r - l).toNat + 1) + (r - i).toNat := by
        have h2 : ((r - l).toNat - 1) * ((r - l).toNat + 1) <
            (r - l).toNat * ((r - l).toNat + 1) :=
          Nat.mul_lt_mul_of_lt_of_le (by omega) (le_refl _) (by omega)
        omega

/-- Measure decrease for the advance-left move of the loop. -/
lemma bmeasure_left {l r i i1 : Int} (h0 : 0 ≤ l) (hli : l ≤ i)
    (hir : i < r) (hi1 : i + 1 ≤ i1) (hi1r : i1 ≤ r) :
    bmeasure i r i1 < bmeasure l r i := by
  unfold bmeasure
  have hba : (r - i).toNat ≤ (r - l).toNat := by omega
  calc (r - i).toNat * ((r - i).toNat + 1) + (r - i1).toNat
      ≤ (r - i).toNat * ((r - i).toNat + 1) + ((r - i).toNat - 1) := by omega
    _ < (r - i).toNat * ((r - i).toNat + 1) + (r - i).toNat := by omega
    _ ≤ (r - l).toNat * ((r - l).toNat + 1) + (r - i).toNat := by
        have := Nat.mul_le_mul hba (show (r - i).toNat + 1 ≤ (r - l).toNat + 1 by omega)
        omega

/-- The bisection loop cannot run out of fuel from a state satisfying the
interval invariant with fuel above the measure. -/
lemma bisect_loop_no_noFuel (sb : SB) (cmp : BKey → BKey → Int) (qkey : BKey) :
    ∀ (fuel : Nat) (q : QFrame) (left right c : Int),
      0 ≤ left → left ≤ q.index → q.index ≤ right →
      bmeasure left right q.index < fuel →
      bisect_loop sb cmp qkey fuel q left right c ≠ .error .noFuel := by
  intro fuel
  induction fuel with
  | zero => intro q l r c _ _ _ hm; omega
  | succ n ih =>
    intro q l r c h0 hli hir hm hcon
    unfold bisect_loop at hcon
    by_cases hc : 0 < c
    · by_cases hg : q.index - 1 < l
      · rw [show bisect_step q l r c = .error .enodata from by
          unfold bisect_step; rw [if_pos hc, if_pos hg]] at hcon
        simp at hcon
      · have hstep : bisect_step q l r c =
            .ok ({ q with index := Int.tdiv (l + (q.index - 1)) 2 },
              l, q.index - 1) := by
          unfold bisect_step; rw [if_pos hc, if_neg hg]
        rw [hstep] at hcon
        dsimp only at hcon
        obtain ⟨hb1, hb2⟩ := tdiv_lower_bounds h0 (show l ≤ q.index - 1 by omega)
        cases hlk : node_locate_key sb q.node (Int.tdiv (l + (q.index - 1)) 2) with
        | error e =>
          rw [hlk] at hcon
          obtain ⟨f, hf⟩ := node_locate_key_error hlk
          rw [hf] at hcon
          simp at hcon
        | ok ol =>
          obtain ⟨kOff, kLen⟩ := ol
          rw [hlk] at hcon
          dsimp only at hcon
          cases hkf : key_from_query
              { q with index := Int.tdiv (l + (q.index - 1)) 2,
                       keyOff := kOff, keyLen := kLen } with
          | error e =>
            rw [hkf] at hcon
            rw [key_from_query_error hkf] at hcon
            simp at hcon
          | ok curr =>
            rw [hkf] at hcon
            dsimp only at hcon
            split_ifs at hcon with hx1 hx2
            refine ih _ _ _ _ h0 (by simpa using hb1) (by simpa using hb2) ?_ hcon
            have hd := bmeasure_right h0 (show l ≤ q.index - 1 by omega) hir hb1 hb2
            have hgoal : bmeasure l (q.index - 1) (Int.tdiv (l + (q.index - 1)) 2) < n := by
              omega
            simpa using hgoal
    · have hstep : bisect_step q l r c =
          .ok ({ q with index := div_round_up (q.index + r) 2 }, q.index, r) := by
        unfold bisect_step; rw [if_neg hc]
      rw [hstep] at hcon
      dsimp only at hcon
      obtain ⟨hb1, hb2, hb3⟩ := div_round_up_bounds (by omega : (0:Int) ≤ q.index) hir
      cases hlk : node_locate_key sb q.node (div_round_up (q.index + r) 2) with
      | error e =>
        rw [hlk] at hcon
        obtain ⟨f, hf⟩ := node_locate_key_error hlk
        rw [hf] at hcon
        simp at hcon
      | ok ol =>
        obtain ⟨kOff, kLen⟩ := ol
        rw [hlk] at hcon
        dsimp only at hcon
        cases hkf : key_from_query
            { q with index := div_round_up (q.index + r) 2,
                     keyOff := kOff, keyLen := kLen } with
        | error e =>
          rw [hkf] at hcon
          rw [key_from_query_error hkf] at hcon
          simp at hcon
        | ok curr =>
          rw [hkf] at hcon
          dsimp only at hcon
          split_ifs at hcon with hx1 hx2
          have hlt : q.index < r := by
            rcases lt_or_eq_of_le hir with h | h
            · exact h
            · exact absurd (by simpa using h) hx2
          refine ih _ _ _ _ (by omega)
            (by simpa using le_trans (by omega : q.index ≤ q.index + 1) (hb3 hlt))
            (by simpa using hb2) ?_ hcon
          have hd := bmeasure_left h0 hli hlt (hb3 hlt) hb2
          have hgoal : bmeasure q.index r (div_round_up (q.index + r) 2) < n := by
            omega
          simpa using hgoal

/-- C9: the bisection loop of `node_query` terminates for every node,
every initial index `0 < index ≤ record_count` and every comparator: with
fuel `(index + 1)² + 1` the loop never exhausts it — each
comparison `> 0` strictly shrinks the interval and each comparison `≤ 0`
strictly advances the index through `DIV_ROUND_UP(left + right, 2)`. -/
theorem claim_C9_bisection_terminates (sb : SB) (cmp : BKey → BKey → Int)
    (qkey : BKey) (q : QFrame) (fuel : Nat)
    (h1 : 1 ≤ q.index) (h2 : q.index ≤ q.node.records)
    (hf : (q.index.toNat + 1) * (q.index.toNat + 1) + 1 ≤ fuel) :
    bisect_loop sb cmp qkey fuel q 0 0 1 ≠ .error .noFuel := by
  obtain ⟨n, rfl⟩ : ∃ n, fuel = n + 1 := ⟨fuel - 1, by omega⟩
  intro hcon
  unfold bisect_loop at hcon
  have hstep : bisect_step q 0 0 1 =
      .ok ({ q with index := Int.tdiv (0 + (q.index - 1)) 2 },
        0, q.index - 1) := by
    unfold bisect_step
    rw [if_pos (by omega), if_neg (by omega)]
  rw [hstep] at hcon
  dsimp only at hcon
  obtain ⟨hb1, hb2⟩ := tdiv_lower_bounds (le_refl (0 : Int))
    (show (0:Int) ≤ q.index - 1 by omega)
  cases hlk : node_locate_key sb q.node (Int.tdiv (0 + (q.index - 1)) 2) with
  | error e =>
    rw [hlk] at hcon
    obtain ⟨f, hf2⟩ := node_locate_key_error hlk
    rw [hf2] at hcon
    simp at hcon
  | ok ol =>
    obtain ⟨kOff, kLen⟩ := ol
    rw [hlk] at hcon
    dsimp only at hcon
    cases hkf : key_from_query
        { q with index := Int.tdiv (0 + (q.index - 1)) 2,
                 keyOff := kOff, keyLen := kLen } with
    | error e =>
      rw [hkf] at hcon
      rw [key_from_query_error hkf] at hcon
      simp at hcon
    | ok curr =>
      rw [hkf] at hcon
      dsimp only at hcon
      split_ifs at hcon with hx1 hx2
      refine bisect_loop_no_noFuel sb cmp qkey n _ 0 (q.index - 1) _
        (le_refl _) (by simpa using hb1) (by simpa using hb2) ?_ hcon
      dsimp only
      unfold bmeasure
      simp only [zero_add]
      have hb1' : 0 ≤ Int.tdiv (q.index - 1) 2 := by simpa using hb1
      have hb2' : Int.tdiv (q.index - 1) 2 ≤ q.index - 1 := by simpa using hb2
      obtain ⟨B, hB⟩ : ∃ B, q.index.toNat = B + 1 := ⟨q.index.toNat - 1, by omega⟩
      have e1 : (q.index - 1 - 0).toNat = B := by omega
      have e2 : (q.index - 1 - Int.tdiv (q.index - 1) 2).toNat ≤ B := by omega
      have e3 : B * (B + 1) + B < (B + 2) * (B + 2) := by nlinarith
      have e4 : (B + 2) * (B + 2) ≤ n := by
        calc (B + 2) * (B + 2) = (q.index.toNat + 1) * (q.index.toNat + 1) := by
              rw [hB]
          _ ≤ n := by omega
      calc (q.index - 1 - 0).toNat * ((q.index - 1 - 0).toNat + 1) +
            (q.index - 1 - Int.tdiv (q.index - 1) 2).toNat
          ≤ B * (B + 1) + B := by rw [e1]; omega
        _ < (B + 2) * (B + 2) := e3
        _ ≤ n := e4

/-! ## C1: functional correctness of the in-node bisection search -/

/-- Exit characterization of the bisection loop on a sorted node.  The
state `(q1, left, right, c)` carries the invariants of the loop: the
frame agrees with the original query on node, flags and target key; the
interval is well-formed; `c` is the comparison at the current index;
every index above `right` compares greater than the target; and `left`
is 0 or a position whose key compares `≤`.  The loop then either returns
the frame at some index with the comparison at that index — an equality
break for single queries, the largest `≤` position, or a proof that every
key is greater — or reports no-data with every key greater. -/
lemma bisect_loop_correct (sb : SB) (cmp : BKey → BKey → Int) (q : QFrame)
    (qk : BKey) (keys : Int → BKey) (idx0 : Int)
    (Hrec : idx0 ≤ q.node.records)
    (Hkeys : ∀ i : Int, 0 ≤ i → i < q.node.records →
      record_key sb q i = .ok (keys i))
    (Hmono : ∀ i j : Int, 0 ≤ i → i ≤ j → j < q.node.records →
      0 < cmp (keys i) qk → 0 < cmp (keys j) qk) :
    ∀ (fuel : Nat) (q1 : QFrame) (left right c : Int),
      q1.node = q.node → q1.flags = q.flags → q1.key = q.key →
      0 ≤ left → left ≤ q1.index → q1.index ≤ right → right < idx0 →
      c = cmp (keys q1.index) qk →
      (∀ j, right < j → j < idx0 → 0 < cmp (keys j) qk) →
      (left = 0 ∨ cmp (keys left) qk ≤ 0) →
      bmeasure left right q1.index < fuel →
      (∃ q2, bisect_loop sb cmp qk fuel q1 left right c =
          .ok (q2, cmp (keys q2.index) qk) ∧
        q2.node = q.node ∧ q2.flags = q.flags ∧ q2.key = q.key ∧
        0 ≤ q2.index ∧ q2.index < idx0 ∧
        ((cmp (keys q2.index) qk = 0 ∧ q.flags.multiple = false) ∨
         (cmp (keys q2.index) qk ≤ 0 ∧
           ∀ j, q2.index < j → j < idx0 → 0 < cmp (keys j) qk) ∨
         (0 < cmp (keys q2.index) qk ∧
           ∀ j, 0 ≤ j → j < idx0 → 0 < cmp (keys j) qk))) ∨
      (bisect_loop sb cmp qk fuel q1 left right c = .error .enodata ∧
        ∀ j, 0 ≤ j → j < idx0 → 0 < cmp (keys j) qk) := by
  intro fuel
  induction fuel with
  | zero => intro q1 l r c _ _ _ _ _ _ _ _ _ _ hm; omega
  | succ n ih =>
    intro q1 l r c hn hf hk h0 hli hir hridx hc hU hL hm
    by_cases hcpos : 0 < c
    · by_cases hg : q1.index - 1 < l
      · -- interval empty: -ENODATA, and every key is greater
        right
        have hIL : q1.index = l := by omega
        have hgt : 0 < cmp (keys l) qk := by rw [hIL] at hc; omega
        have hl0 : l = 0 := by
          rcases hL with h | h
          · exact h
          · omega
        refine ⟨?_, ?_⟩
        · unfold bisect_loop
          rw [show bisect_step q1 l r c = .error .enodata from by
            unfold bisect_step; rw [if_pos hcpos, if_pos hg]]
        · intro j hj0 hjlt
          rcases eq_or_lt_of_le hj0 with h | h
          · rw [← h]
            rw [hl0] at hgt
            exact hgt
          · exact Hmono 0 j (by omega) (by omega) (by omega) (hl0 ▸ hgt)
      · have hstep : bisect_step q1 l r c =
            .ok ({ q1 with index := Int.tdiv (l + (q1.index - 1)) 2 },
              l, q1.index - 1) := by
          unfold bisect_step; rw [if_pos hcpos, if_neg hg]
        obtain ⟨hb1, hb2⟩ := tdiv_lower_bounds h0 (show l ≤ q1.index - 1 by omega)
        set mid := Int.tdiv (l + (q1.index - 1)) 2 with hmid
        have hi10 : 0 ≤ mid := by omega
        have hi1lt : mid < idx0 := by omega
        obtain ⟨ol, hlk, hkfq⟩ := record_key_ok (Hkeys mid hi10 (by omega))
        obtain ⟨kOff, kLen⟩ := ol
        have hlk1 : node_locate_key sb q1.node mid = .ok (kOff, kLen) := by
          rw [hn]; exact hlk
        have hkf' : key_from_query { q1 with index := mid, keyOff := kOff, keyLen := kLen } =
            .ok (keys mid) := by
          rw [@key_from_query_congr { q1 with index := mid, keyOff := kOff, keyLen := kLen }
            { q with keyOff := kOff, keyLen := kLen }
            (by simpa using hn) (by simpa using hf) rfl rfl]
          exact hkfq
        have hgt1 : 0 < cmp (keys q1.index) qk := by omega
        have hU' : ∀ j, q1.index - 1 < j → j < idx0 → 0 < cmp (keys j) qk := by
          intro j hj1 hj2
          rcases eq_or_lt_of_le (show q1.index ≤ j by omega) with h | h
          · rw [← h]; exact hgt1
          · exact Hmono q1.index j (by omega) (by omega) (by omega) hgt1
        by_cases hbreak : cmp (keys mid) qk = 0 ∧ q.flags.multiple = false
        · left
          refine ⟨{ q1 with index := mid, keyOff := kOff, keyLen := kLen },
            ?_, by simpa using hn, by simpa using hf, by simpa using hk,
            by simpa using hi10, by simpa using hi1lt,
            Or.inl ⟨by simpa using hbreak.1, hbreak.2⟩⟩
          unfold bisect_loop
          rw [hstep]
          dsimp only
          rw [hlk1]
          dsimp only
          rw [hkf']
          dsimp only
          rw [if_pos ⟨hbreak.1, by rw [hf]; exact hbreak.2⟩]
        · by_cases hlr : l = q1.index - 1
          · have hieq : mid = l := by omega
            left
            refine ⟨{ q1 with index := mid, keyOff := kOff, keyLen := kLen },
              ?_, by simpa using hn, by simpa using hf, by simpa using hk,
              by simpa using hi10, by simpa using hi1lt, ?_⟩
            · unfold bisect_loop
              rw [hstep]
              dsimp only
              rw [hlk1]
              dsimp only
              rw [hkf']
              dsimp only
              rw [if_neg (fun habs => hbreak ⟨habs.1, by rw [← hf]; exact habs.2⟩),
                if_pos hlr]
            · rcases le_or_lt (cmp (keys mid) qk) 0 with hle | hgt
              · refine Or.inr (Or.inl ⟨by simpa using hle, ?_⟩)
                intro j hj1 hj2
                have hj1' : q1.index - 1 < j := by
                  have hx : ({ q1 with index := mid, keyOff := kOff, keyLen := kLen }).index = mid := rfl
                  omega
                exact hU' j hj1' hj2
              · have hl0 : l = 0 := by
                  rcases hL with h | h
                  · exact h
                  · rw [hieq] at hgt; omega
                refine Or.inr (Or.inr ⟨by simpa using hgt, ?_⟩)
                intro j hj0 hjlt
                rcases eq_or_lt_of_le hj0 with h | h
                · rw [← h]
                  rw [hieq, hl0] at hgt
                  exact hgt
                · rw [hieq, hl0] at hgt
                  exact Hmono 0 j (by omega) (by omega) (by omega) hgt
          · unfold bisect_loop
            rw [hstep]
            dsimp only
            rw [hlk1]
            dsimp only
            rw [hkf']
            dsimp only
            rw [if_neg (fun habs => hbreak ⟨habs.1, by rw [← hf]; exact habs.2⟩),
              if_neg hlr]
            refine ih _ l (q1.index - 1) _ (by simpa using hn) (by simpa using hf)
              (by simpa using hk) h0 (by simpa using hb1) (by simpa using hb2)
              (by omega) rfl hU' hL ?_
            have hd := bmeasure_right h0 (show l ≤ q1.index - 1 by omega) hir hb1 hb2
            have hgoal : bmeasure l (q1.index - 1) mid < n := by omega
            simpa using hgoal
    · have hstep : bisect_step q1 l r c =
          .ok ({ q1 with index := div_round_up (q1.index + r) 2 }, q1.index, r) := by
        unfold bisect_step; rw [if_neg hcpos]
      obtain ⟨hb1, hb2, hb3⟩ :=
        div_round_up_bounds (show (0:Int) ≤ q1.index by omega) hir
      set mid := div_round_up (q1.index + r) 2 with hmid
      have hi10 : 0 ≤ mid := by omega
      have hi1lt : mid < idx0 := by omega
      obtain ⟨ol, hlk, hkfq⟩ := record_key_ok (Hkeys mid hi10 (by omega))
      obtain ⟨kOff, kLen⟩ := ol
      have hlk1 : node_locate_key sb q1.node mid = .ok (kOff, kLen) := by
        rw [hn]; exact hlk
      have hkf' : key_from_query { q1 with index := mid, keyOff := kOff, keyLen := kLen } =
          .ok (keys mid) := by
        rw [@key_from_query_congr { q1 with index := mid, keyOff := kOff, keyLen := kLen }
          { q with keyOff := kOff, keyLen := kLen }
          (by simpa using hn) (by simpa using hf) rfl rfl]
        exact hkfq
      have hle1 : cmp (keys q1.index) qk ≤ 0 := by omega
      have hL' : q1.index = 0 ∨ cmp (keys q1.index) qk ≤ 0 := Or.inr hle1
      by_cases hbreak : cmp (keys mid) qk = 0 ∧ q.flags.multiple = false
      · left
        refine ⟨{ q1 with index := mid, keyOff := kOff, keyLen := kLen },
          ?_, by simpa using hn, by simpa using hf, by simpa using hk,
          by simpa using hi10, by simpa using hi1lt,
          Or.inl ⟨by simpa using hbreak.1, hbreak.2⟩⟩
        unfold bisect_loop
        rw [hstep]
        dsimp only
        rw [hlk1]
        dsimp only
        rw [hkf']
        dsimp only
        rw [if_pos ⟨hbreak.1, by rw [hf]; exact hbreak.2⟩]
      · by_cases hlr : q1.index = r
        · have hieq : mid = q1.index := by omega
          left
          refine ⟨{ q1 with index := mid, keyOff := kOff, keyLen := kLen },
            ?_, by simpa using hn, by simpa using hf, by simpa using hk,
            by simpa using hi10, by simpa using hi1lt, ?_⟩
          · unfold bisect_loop
            rw [hstep]
            dsimp only
            rw [hlk1]
            dsimp only
            rw [hkf']
            dsimp only
            rw [if_neg (fun habs => hbreak ⟨habs.1, by rw [← hf]; exact habs.2⟩),
              if_pos hlr]
          · refine Or.inr (Or.inl ⟨?_, ?_⟩)
            · show cmp (keys mid) qk ≤ 0
              rw [hieq]
              exact hle1
            · intro j hj1 hj2
              have hj1' : r < j := by
                have hx : ({ q1 with index := mid, keyOff := kOff, keyLen := kLen }).index = mid := rfl
                omega
              exact hU j hj1' hj2
        · have hlt : q1.index < r := by omega
          unfold bisect_loop
          rw [hstep]
          dsimp only
          rw [hlk1]
          dsimp only
          rw [hkf']
          dsimp only
          rw [if_neg (fun habs => hbreak ⟨habs.1, by rw [← hf]; exact habs.2⟩),
            if_neg hlr]
          refine ih _ q1.index r _ (by simpa using hn) (by simpa using hf)
            (by simpa using hk) (by omega)
            (by simpa using le_trans (by omega : q1.index ≤ q1.index + 1) (hb3 hlt))
            (by simpa using hb2) hridx rfl hU hL' ?_
          have hd := bmeasure_left h0 hli hlt (hb3 hlt) hb2
          have hgoal : bmeasure q1.index r mid < n := by omega
          simpa using hgoal

/-- The bisection of `node_query` from its initial state (`left = 0`,
dead `right`, previous comparison `1`): on a node whose keys are listed
by `keys` and monotone against the target under `cmp`, it either lands
on an index below the record count, returning the comparison there with
its characterization (single-query equality break, or the rightmost
position compatible with the bounds), or reports no-data with every key
comparing greater than the target. -/
lemma bisect_initial (sb : SB) (cmp : BKey → BKey → Int) (q : QFrame)
    (qk : BKey) (keys : Int → BKey) (fuel : Nat)
    (Hidx : 0 < q.index) (Hrec : q.index ≤ q.node.records)
    (Hkeys : ∀ i : Int, 0 ≤ i → i < q.node.records →
      record_key sb q i = .ok (keys i))
    (Hmono : ∀ i j : Int, 0 ≤ i → i ≤ j → j < q.node.records →
      0 < cmp (keys i) qk → 0 < cmp (keys j) qk)
    (Hfuel : (q.index.toNat + 1) * (q.index.toNat + 1) + 1 ≤ fuel) :
    (∃ q2, bisect_loop sb cmp qk fuel q 0 0 1 =
        .ok (q2, cmp (keys q2.index) qk) ∧
      q2.node = q.node ∧ q2.flags = q.flags ∧ q2.key = q.key ∧
      0 ≤ q2.index ∧ q2.index < q.index ∧
      ((cmp (keys q2.index) qk = 0 ∧ q.flags.multiple = false) ∨
       (cmp (keys q2.index) qk ≤ 0 ∧
         ∀ j, q2.index < j → j < q.index → 0 < cmp (keys j) qk) ∨
       (0 < cmp (keys q2.index) qk ∧
         ∀ j, 0 ≤ j → j < q.index → 0 < cmp (keys j) qk))) ∨
    (bisect_loop sb cmp qk fuel q 0 0 1 = .error .enodata ∧
      ∀ j, 0 ≤ j → j < q.index → 0 < cmp (keys j) qk) := by
  obtain ⟨n, rfl⟩ : ∃ n, fuel = n + 1 := ⟨fuel - 1, by omega⟩
  have hstep : bisect_step q 0 0 1 =
      .ok ({ q with index := Int.tdiv (0 + (q.index - 1)) 2 }, 0, q.index - 1) := by
    unfold bisect_step
    rw [if_pos (by omega : (0:Int) < 1), if_neg (by omega : ¬q.index - 1 < 0)]
  obtain ⟨hb1, hb2⟩ := tdiv_lower_bounds (le_refl (0 : Int))
    (show (0:Int) ≤ q.index - 1 by omega)
  set mid := Int.tdiv (0 + (q.index - 1)) 2 with hmid
  have hi10 : 0 ≤ mid := hb1
  have hi1lt : mid < q.index := by omega
  obtain ⟨ol, hlk, hkfq⟩ := record_key_ok (Hkeys mid hi10 (by omega))
  obtain ⟨kOff, kLen⟩ := ol
  have hkf' : key_from_query { q with index := mid, keyOff := kOff, keyLen := kLen } =
      .ok (keys mid) := by
    rw [@key_from_query_congr { q with index := mid, keyOff := kOff, keyLen := kLen }
      { q with keyOff := kOff, keyLen := kLen } rfl rfl rfl rfl]
    exact hkfq
  by_cases hbreak : cmp (keys mid) qk = 0 ∧ q.flags.multiple = false
  · left
    refine ⟨{ q with index := mid, keyOff := kOff, keyLen := kLen },
      ?_, rfl, rfl, rfl, hi10, hi1lt, Or.inl hbreak⟩
    unfold bisect_loop
    rw [hstep]
    dsimp only
    rw [hlk]
    dsimp only
    rw [hkf']
    dsimp only
    rw [if_pos hbreak]
  · by_cases hlr : (0:Int) = q.index - 1
    · left
      refine ⟨{ q with index := mid, keyOff := kOff, keyLen := kLen },
        ?_, rfl, rfl, rfl, hi10, hi1lt, ?_⟩
      · unfold bisect_loop
        rw [hstep]
        dsimp only
        rw [hlk]
        dsimp only
        rw [hkf']
        dsimp only
        rw [if_neg hbreak, if_pos hlr]
      · rcases le_or_lt (cmp (keys mid) qk) 0 with hle | hgt
        · refine Or.inr (Or.inl ⟨hle, ?_⟩)
          intro j hj1 hj2
          exfalso
          have hx : ({ q with index := mid, keyOff := kOff, keyLen := kLen }).index = mid := rfl
          omega
        · refine Or.inr (Or.inr ⟨hgt, ?_⟩)
          intro j hj0 hjlt
          have hj : j = 0 := by omega
          have hmid0 : mid = 0 := by omega
          rw [hj]
          rw [hmid0] at hgt
          exact hgt
    · unfold bisect_loop
      rw [hstep]
      dsimp only
      rw [hlk]
      dsimp only
      rw [hkf']
      dsimp only
      rw [if_neg hbreak, if_neg hlr]
      refine bisect_loop_correct sb cmp q qk keys q.index Hrec Hkeys Hmono n
        _ 0 (q.index - 1) _ rfl rfl rfl (le_refl 0) hb1 hb2 (by omega) rfl
        ?_ (Or.inl rfl) ?_
      · intro j hj1 hj2
        exfalso
        omega
      · have hmeas : bmeasure 0 (q.index - 1) mid < n := by
          unfold bmeasure
          obtain ⟨B, hB⟩ : ∃ B, q.index.toNat = B + 1 := ⟨q.index.toNat - 1, by omega⟩
          have e1 : (q.index - 1 - 0).toNat = B := by omega
          have e2 : (q.index - 1 - mid).toNat ≤ B := by omega
          have e3 : B * (B + 1) + B < (B + 2) * (B + 2) := by nlinarith
          have e4 : (B + 2) * (B + 2) ≤ n := by
            calc (B + 2) * (B + 2) = (q.index.toNat + 1) * (q.index.toNat + 1) := by
                  rw [hB]
              _ ≤ n := by omega
          calc (q.index - 1 - 0).toNat * ((q.index - 1 - 0).toNat + 1) +
                (q.index - 1 - mid).toNat
              ≤ B * (B + 1) + B := by rw [e1]; omega
            _ < (B + 2) * (B + 2) := e3
            _ ≤ n := e4
        simpa using hmeas

/-- C1: for every node whose records are sorted ascending under the
comparator and every query `q` with `0 < q.index ≤ record_count` and
without the NEXT flag, `node_query` returns success with the index set
to the largest index in `[0, initial q.index)` whose key compares `≤`
to the target (an equal key terminating the search early for
single-match queries); it returns `-ENODATA` when every key in that
range compares strictly greater, and also when the node is a leaf, the
best match is inexact and the query carries the EXACT flag. -/
theorem claim_C1_node_query_bisection (sb : SB) (cmp : BKey → BKey → Int)
    (q : QFrame) (qk : BKey) (keys : Int → BKey) (fuel : Nat)
    (Hnext : q.flags.next = false)
    (Hkey : q.key = some qk)
    (Hidx : 0 < q.index) (Hrec : q.index ≤ q.node.records)
    (Hkeys : ∀ i : Int, 0 ≤ i → i < q.node.records →
      record_key sb q i = .ok (keys i))
    (Hdata : ∀ i : Int, 0 ≤ i → i < q.node.records →
      ∃ off len, node_locate_data sb q.node i = .ok (off, len) ∧ len ≠ 0)
    (Hsort : ∀ i j : Int, 0 ≤ i → i ≤ j → j < q.node.records →
      cmp (keys i) (keys j) ≤ 0)
    (Htrans : ∀ a b c : BKey, cmp a b ≤ 0 → cmp b c ≤ 0 → cmp a c ≤ 0)
    (Hfuel : (q.index.toNat + 1) * (q.index.toNat + 1) + 1 ≤ fuel) :
    ((∀ j : Int, 0 ≤ j → j < q.index → 0 < cmp (keys j) qk) →
      node_query sb cmp fuel q = .error .enodata) ∧
    ((∃ j : Int, 0 ≤ j ∧ j < q.index ∧ cmp (keys j) qk ≤ 0) →
      ∃ r : Int, 0 ≤ r ∧ r < q.index ∧ cmp (keys r) qk ≤ 0 ∧
        ((q.flags.multiple = false ∧ cmp (keys r) qk = 0) ∨
          (∀ j : Int, r < j → j < q.index → 0 < cmp (keys j) qk)) ∧
        ((cmp (keys r) qk ≠ 0 ∧ node_is_leaf q.node = true ∧ q.flags.exact = true →
            node_query sb cmp fuel q = .error .enodata) ∧
         (¬(cmp (keys r) qk ≠ 0 ∧ node_is_leaf q.node = true ∧ q.flags.exact = true) →
            ∃ q3, node_query sb cmp fuel q = .ok q3 ∧ q3.index = r))) := by
  have Hmono : ∀ i j : Int, 0 ≤ i → i ≤ j → j < q.node.records →
      0 < cmp (keys i) qk → 0 < cmp (keys j) qk := by
    intro i j hi hij hj hgt
    by_contra hle
    push_neg at hle
    have := Htrans _ _ _ (Hsort i j hi hij hj) hle
    omega
  have hqk : q.key.iget = qk := by rw [Hkey]
  rcases bisect_initial sb cmp q qk keys fuel Hidx Hrec Hkeys Hmono Hfuel with
    ⟨q2, heq, hn2, hf2, hk2, h02, hlt2, hchar⟩ | ⟨heq, hall⟩
  · have hrun : cmp (keys q2.index) qk ≤ 0 →
        (cmp (keys q2.index) qk ≠ 0 ∧ node_is_leaf q.node = true ∧
            q.flags.exact = true →
          node_query sb cmp fuel q = .error .enodata) ∧
        (¬(cmp (keys q2.index) qk ≠ 0 ∧ node_is_leaf q.node = true ∧
            q.flags.exact = true) →
          ∃ q3, node_query sb cmp fuel q = .ok q3 ∧ q3.index = q2.index) := by
      intro hle2
      constructor
      · intro hcond
        unfold node_query
        rw [if_neg (by simp [Hnext])]
        rw [hqk, heq]
        dsimp only
        rw [if_neg (by omega)]
        rw [if_pos ⟨hcond.1, by rw [hn2]; exact hcond.2.1,
          by rw [hf2]; exact hcond.2.2⟩]
      · intro hncond
        unfold node_query
        rw [if_neg (by simp [Hnext])]
        rw [hqk, heq]
        dsimp only
        rw [if_neg (by omega)]
        rw [if_neg (fun habs => hncond ⟨habs.1, by rw [← hn2]; exact habs.2.1,
          by rw [← hf2]; exact habs.2.2⟩)]
        obtain ⟨off, len, hld, hlen⟩ := Hdata q2.index h02 (by omega)
        rw [show node_locate_data sb q2.node q2.index = .ok (off, len) from by
          rw [hn2]; exact hld]
        dsimp only
        rw [if_neg hlen]
        exact ⟨_, rfl,
          (multiple_update_frame q2 (cmp (keys q2.index) qk)).2.2.2.1⟩
    constructor
    · intro hAll
      have hgt2 : 0 < cmp (keys q2.index) qk := hAll q2.index h02 hlt2
      unfold node_query
      rw [if_neg (by simp [Hnext])]
      rw [hqk, heq]
      dsimp only
      rw [if_pos hgt2]
    · intro hex
      rcases hchar with ⟨hz, hsingle⟩ | ⟨hle2, hlarge⟩ | ⟨hgt, hallg⟩
      · obtain ⟨h1, h2⟩ := hrun (by omega)
        exact ⟨q2.index, h02, hlt2, by omega, Or.inl ⟨hsingle, hz⟩, h1, h2⟩
      · obtain ⟨h1, h2⟩ := hrun hle2
        exact ⟨q2.index, h02, hlt2, hle2, Or.inr hlarge, h1, h2⟩
      · exfalso
        obtain ⟨j, hj0, hjlt, hjle⟩ := hex
        have := hallg j hj0 hjlt
        omega
  · constructor
    · intro hAll
      unfold node_query
      rw [if_neg (by simp [Hnext])]
      rw [hqk, heq]
    · intro hex
      exfalso
      obtain ⟨j, hj0, hjlt, hjle⟩ := hex
      have := hall j hj0 hjlt
      omega

/-- The omap comparator is transitive in the `≤ 0` sense. -/
lemma cmpK_le_trans (a b c : BKey) (hab : cmpK a b ≤ 0) (hbc : cmpK b c ≤ 0) :
    cmpK a c ≤ 0 := by
  unfold cmpK at hab hbc ⊢
  split_ifs at hab hbc ⊢ <;> omega

/-- A concrete single exact-free query frame on the scenario leaf. -/
def qC1 : QFrame :=
  { node := nodeOmapLeafW
    key := some ⟨7, 0, 0, none⟩
    flags := { omap := true }
    index := 1
    keyOff := 0, keyLen := 0, off := 0, len := 0
    depth := 1 }

/-- The record keys of the scenario leaf, as a function of the index. -/
def keysW : Int → BKey := fun _ => ⟨7, 0, 0, none⟩

/-- Witness for C1 on the scenario leaf: the single-record bisection
finds record 0, whose key equals the target. -/
theorem claim_C1_node_query_bisection_witness :
    ∃ q3, node_query sbW cmpK 5 qC1 = .ok q3 ∧ q3.index = 0 := by
  have h := claim_C1_node_query_bisection sbW cmpK qC1 ⟨7, 0, 0, none⟩ keysW 5
    rfl rfl (by decide) (by decide)
    (by
      intro i h1 h2
      have hr : qC1.node.records = 1 := by decide
      have hi : i = 0 := by omega
      subst hi
      rfl)
    (by
      intro i h1 h2
      have hr : qC1.node.records = 1 := by decide
      have hi : i = 0 := by omega
      subst hi
      exact ⟨4080, 16, by rfl, by decide⟩)
    (by
      intro i j h1 h2 h3
      show cmpK ⟨7, 0, 0, none⟩ ⟨7, 0, 0, none⟩ ≤ 0
      decide)
    cmpK_le_trans
    (by decide)
  obtain ⟨r, hr0, hr1, hrle, hdisj, hpair⟩ :=
    h.2 ⟨0, by decide, by decide, by decide⟩
  have hre : r = 0 := by
    have h1 : qC1.index = 1 := by decide
    omega
  subst hre
  exact hpair.2 (fun hc => hc.1 (by decide))

/-- Witness for C9 at a concrete query on the scenario leaf. -/
theorem claim_C9_bisection_terminates_witness :
    bisect_loop sbW cmpK ⟨0, 0, 0, none⟩ 5 qC6 0 0 1 ≠ .error .noFuel :=
  claim_C9_bisection_terminates sbW cmpK (⟨0, 0, 0, none⟩ : BKey) qC6 5
    (by decide) (by decide) (by decide)

end Apfsck
